import Mathlib

set_option maxRecDepth 8000

/-
Verification of the registry-maintenance scripts of the claude-skill-homeassistant
repository. The Python scripts operate on the Home Assistant entity registry, a JSON
file whose `data.entities` field is a list of entity records. Python strings are
embedded as Lean `String` values and Python string methods are re-implemented
structurally over the underlying code-point lists (`String.data`), so that all
definitions evaluate by kernel reduction. Python dictionaries keyed by strings are
embedded as insertion-ordered association lists in which overwriting a key keeps the
position of its first insertion (the CPython dict iteration-order contract). The
in-place object mutation of `scripts/fix_automation_registry.py` is embedded with an
explicit store: entity records live in a fixed list indexed by their original
position, the `entities` JSON list is a list of indices into that store, and the
`automations` dictionary maps entity ids to store indices, so that aliasing between
the dictionary values and the list elements is represented exactly.
-/

/-! ## Python string primitives -/

/-- `listStarts s p` is true when the list `p` is an initial segment of `s`. -/
def listStarts : List Char → List Char → Bool
  | _, [] => true
  | [], _ :: _ => false
  | c :: s, d :: p => c == d && listStarts s p

/-- Python `s.startswith(p)`. -/
def pyStartsWith (s p : String) : Bool := listStarts s.data p.data

/-- Python `s.endswith(p)`. -/
def pyEndsWith (s p : String) : Bool := listStarts s.data.reverse p.data.reverse

/-- Python `s[:-2]`: the string without its last two code points. -/
def pyDropLast2 (s : String) : String := ⟨s.data.take (s.data.length - 2)⟩

/-- Fuel-driven body of Python `s.replace(pat, rep)`: replaces every non-overlapping
occurrence of `pat`, scanning left to right. The fuel is the length of the remaining
input, which bounds the recursion because each step consumes at least one code point
(the scripts only call it with a non-empty pattern). -/
def replaceFuel (pat rep : List Char) : Nat → List Char → List Char
  | _, [] => []
  | 0, s => s
  | n + 1, c :: rest =>
    if listStarts (c :: rest) pat then rep ++ replaceFuel pat rep n (rest.drop (pat.length - 1))
    else c :: replaceFuel pat rep n rest

/-- Python `s.replace(pat, rep)`. -/
def pyReplace (s pat rep : String) : String := ⟨replaceFuel pat.data rep.data s.data.length s.data⟩

/-- Python `s.isdigit()` restricted to ASCII digits: true exactly when `s` is
non-empty and every code point is a decimal digit. -/
def pyIsDigit (s : String) : Bool := !s.data.isEmpty && s.data.all Char.isDigit

/-- Python `s.lower()` (ASCII case folding suffices for the `"y"` comparison). -/
def pyLower (s : String) : String := ⟨s.data.map Char.toLower⟩

/-- Lexicographic order on code-point lists, the order Python uses to compare
strings: `lexLe a b` is true when `a` is at most `b`. -/
def lexLe : List Char → List Char → Bool
  | [], _ => true
  | _ :: _, [] => false
  | a :: s, b :: t =>
    if a.toNat < b.toNat then true
    else if b.toNat < a.toNat then false
    else lexLe s t

/-! ## Data model -/

/-- One record of `data.entities` in `core.entity_registry`. The fields the scripts
read or write are explicit; every remaining JSON field of a record is collected
untouched in `other`. -/
structure Entity where
  entity_id : String
  unique_id : String
  area_id : Option String
  icon : Option String
  labels : List String
  other : List (String × String)
deriving DecidableEq, Repr

/-- The test `e["entity_id"].startswith("automation.")` used by every script to
select automation records. -/
def isAutomation (e : Entity) : Bool := pyStartsWith e.entity_id "automation."

/-- `e` with its `unique_id` blanked: two records agree under `stripUniqueId`
exactly when they agree on every field other than `unique_id`. -/
def stripUniqueId (e : Entity) : Entity := { e with unique_id := "" }

/-- Assignment `d[k] = v` on a CPython dict embedded as an association list: an
existing key keeps its position and gets the new value, a new key is appended. -/
def pyDictInsert {β : Type} (d : List (String × β)) (k : String) (v : β) : List (String × β) :=
  match d with
  | [] => [(k, v)]
  | (a, b) :: rest => if a = k then (k, v) :: rest else (a, b) :: pyDictInsert rest k v

/-! ## The duplicate-fix operation
(`fix_automation_registry.main`, lines 46-83, and the identical registry loop of
`ha_migrate_automation_ids.cmd_fix_registry`, lines 466-501). -/

/-- The dict comprehension
`{e["entity_id"]: e for e in entities if e["entity_id"].startswith("automation.")}`,
with values embedded as store indices. The counter `i` is the position of the next
record. -/
def buildAutomationsAux : Nat → List Entity → List (String × Nat) → List (String × Nat)
  | _, [], d => d
  | i, e :: rest, d =>
    buildAutomationsAux (i + 1) rest (if isAutomation e then pyDictInsert d e.entity_id i else d)

/-- The `automations` dictionary of the duplicate-fix operation. -/
def buildAutomations (entities : List Entity) : List (String × Nat) :=
  buildAutomationsAux 0 entities []

/-- Python `entities.remove(entry)` where `entry` is the record stored at index `j`:
removes the first element of the list whose record compares equal (by value, as
CPython compares dicts) to the record at `j`. -/
def pyListRemove (store : List Entity) (es : List Nat) (j : Nat) : List Nat :=
  match es with
  | [] => []
  | i :: rest => if store[i]? = store[j]? then rest else i :: pyListRemove store rest j

/-- One iteration of the loop `for entity_id, entry in list(automations.items())`:
when `entity_id` ends in `"_2"` and the base id is a key of `automations`, the base
record gets the `unique_id` of the `_2` record (an in-place update of the store) and
the `_2` record is removed from the entity list, in that order, exactly as in the
source. -/
def fixStep (autos : List (String × Nat)) (s : List Entity × List Nat)
    (item : String × Nat) : List Entity × List Nat :=
  if pyEndsWith item.1 "_2" then
    match autos.lookup (pyDropLast2 item.1) with
    | some k =>
      match s.1[k]?, s.1[item.2]? with
      | some oldEntry, some entry =>
        let store' := s.1.set k { oldEntry with unique_id := entry.unique_id }
        (store', pyListRemove store' s.2 item.2)
      | _, _ => s
    | none => s
  else s

/-- The full loop of the duplicate-fix operation: the final store and the final list
of store indices. The snapshot `list(automations.items())` is the dictionary itself,
which the loop never mutates. -/
def fixRun (entities : List Entity) : List Entity × List Nat :=
  (buildAutomations entities).foldl (fixStep (buildAutomations entities))
    (entities, List.range entities.length)

/-- The entity list written back by the duplicate-fix operation. -/
def fixEntities (entities : List Entity) : List Entity :=
  (fixRun entities).2.filterMap (fun i => (fixRun entities).1[i]?)

/-- The store indices whose record the duplicate-fix operation writes: the targets
of the `old_entry["unique_id"] = new_unique_id` assignments, read off the
`automations` dictionary. -/
def mergeTargets (entities : List Entity) : List Nat :=
  (buildAutomations entities).filterMap (fun t =>
    if pyEndsWith t.1 "_2" then (buildAutomations entities).lookup (pyDropLast2 t.1) else none)

/-! ### Cost instrumentation for the duplicate-fix loop.
`entities.remove(entry)` is a linear scan of the entity list; `pyListRemoveScan`
counts the equality comparisons that scan performs, and `fixMaxScan` is the largest
such scan any single loop iteration performs. -/

/-- Number of list cells `entities.remove(entry)` inspects. -/
def pyListRemoveScan (store : List Entity) (es : List Nat) (j : Nat) : Nat :=
  match es with
  | [] => 0
  | i :: rest => if store[i]? = store[j]? then 1 else 1 + pyListRemoveScan store rest j

/-- `fixStep` paired with the running maximum of per-iteration removal scans. -/
def fixCostStep (autos : List (String × Nat)) (s : (List Entity × List Nat) × Nat)
    (item : String × Nat) : (List Entity × List Nat) × Nat :=
  (fixStep autos s.1 item,
    if pyEndsWith item.1 "_2" then
      match autos.lookup (pyDropLast2 item.1) with
      | some k =>
        match s.1.1[k]?, s.1.1[item.2]? with
        | some oldEntry, some entry =>
          max s.2 (pyListRemoveScan (s.1.1.set k { oldEntry with unique_id := entry.unique_id })
            s.1.2 item.2)
        | _, _ => s.2
      | none => s.2
    else s.2)

/-- The largest removal scan a single iteration of the duplicate-fix loop performs. -/
def fixMaxScan (entities : List Entity) : Nat :=
  ((buildAutomations entities).foldl (fixCostStep (buildAutomations entities))
    ((entities, List.range entities.length), 0)).2

/-- The reading of the spec sentence under which each loop iteration performs only
constant-time dictionary work: the non-dictionary work of an iteration (the removal
scan) is bounded by a constant independent of the registry. -/
def FixRemovalScanBounded : Prop := ∃ K, ∀ inp : List Entity, fixMaxScan inp ≤ K

/-! ## The execute migration, registry rewrite
(`ha_migrate_automation_ids.cmd_execute`, step 3, lines 377-384). -/

/-- The loop `for entry in entities: if entry["unique_id"] in id_mapping:
entry["unique_id"] = id_mapping[old_unique_id]`. Selection is by `unique_id`
membership in the mapping; `entity_id` is never consulted. -/
def executeUpdateEntities (idMapping : List (String × String)) : List Entity → List Entity
  | [] => []
  | e :: rest =>
    (match idMapping.lookup e.unique_id with
     | some newId => { e with unique_id := newId }
     | none => e) :: executeUpdateEntities idMapping rest

/-! ## The generate operation
(`ha_migrate_automation_ids.cmd_generate`, lines 186-208). -/

/-- `suggested_id = entity_id.replace("automation.", "")`: note this removes every
occurrence of the substring, not only a leading prefix. -/
def suggestedId (e : Entity) : String := pyReplace e.entity_id "automation." ""

/-- The `migrations` dictionary of `cmd_generate`: for every automation record whose
`unique_id` is all digits, maps that `unique_id` to the suggested new id. -/
def generateMigrations (entities : List Entity) : List (String × String) :=
  (entities.filter (fun e => isAutomation e)).foldl
    (fun m e => if pyIsDigit e.unique_id then pyDictInsert m e.unique_id (suggestedId e) else m) []

/-- Modelled from the words of the claim, for comparison with `suggestedId`: the
entity id with the leading `"automation."` removed. -/
def specSuggestedId (e : Entity) : String :=
  ⟨e.entity_id.data.drop "automation.".data.length⟩

/-! ## The stats operation
(`ha_entity_metadata.cmd_stats`, lines 198-211). -/

/-- Python truthiness of `entry.get(field)` for a string-valued field: false for a
missing field and for the empty string. -/
def pyTruthyOptStr : Option String → Bool
  | none => false
  | some s => !s.data.isEmpty

/-- The guarded percentage `100 * count // total if total else 0`. -/
def pctOrZero (count total : Nat) : Nat := if total ≠ 0 then 100 * count / total else 0

/-- The three coverage percentages printed by `cmd_stats` (area, icon, labels). -/
def statsCoverage (entities : List Entity) : Nat × Nat × Nat :=
  let automations := entities.filter (fun e => isAutomation e)
  let total := automations.length
  (pctOrZero (automations.filter (fun a => pyTruthyOptStr a.area_id)).length total,
   pctOrZero (automations.filter (fun a => pyTruthyOptStr a.icon)).length total,
   pctOrZero (automations.filter (fun a => !a.labels.isEmpty)).length total)

/-! ## The backup operation (`ha_backup_registry.backup`, lines 58-90). -/

/-- The backup file path `BACKUP_DIR / f"entity_registry.{timestamp}.json"`. -/
def backupPathFor (ts : String) : String := "backups/entity_registry." ++ ts ++ ".json"

/-- Result of one run of `backup`: the return value and whatever content is left in
the backup file afterwards. -/
structure BackupOutcome where
  result : Option String
  fileContent : Option String
deriving DecidableEq, Repr

/-- `backup`, with the external world abstracted: `fetched` is the file content the
`scp` transfer deposits (`none` when `scp` exits non-zero, in which case no target
file is produced), and `jsonOk` is the verdict of `json.load`. On a fetch failure
the function returns `None`; on a parse failure it unlinks the fetched file and
returns `None`; otherwise it returns the backup path with the file in place. -/
def backup (jsonOk : String → Bool) (ts : String) (fetched : Option String) : BackupOutcome :=
  match fetched with
  | none => ⟨none, none⟩
  | some content =>
    if jsonOk content then ⟨some (backupPathFor ts), some content⟩ else ⟨none, none⟩

/-! ## The restore operation (`ha_backup_registry.restore`, lines 127-192). -/

/-- The environment a run of `restore` observes: whether the named backup file
exists and its content, the interactive confirmation string, and the exit status of
the three remote commands (the pre-restore remote `cp`, the `scp` upload, the
`sudo mv`). -/
structure RestoreEnv where
  backupExists : Bool
  backupContent : String
  confirmInput : String
  remoteCpOk : Bool
  uploadOk : Bool
  moveOk : Bool

/-- Externally visible effects of one run of `restore`. -/
structure RestoreTrace where
  uploadAttempted : Bool
  registryReplaced : Bool
  success : Bool
deriving DecidableEq, Repr

/-- `restore`: early failure returns in source order (missing file, JSON parse
failure, confirmation other than `"y"` after lowering), then the upload and the
`sudo mv` over the remote registry. The pre-restore remote `cp` only warns on
failure, so `remoteCpOk` does not influence the trace. -/
def restore (jsonOk : String → Bool) (env : RestoreEnv) : RestoreTrace :=
  if env.backupExists = true then
    if jsonOk env.backupContent = true then
      if pyLower env.confirmInput = "y" then
        if env.uploadOk = true then
          if env.moveOk = true then ⟨true, true, true⟩ else ⟨true, false, false⟩
        else ⟨true, false, false⟩
      else ⟨false, false, false⟩
    else ⟨false, false, false⟩
  else ⟨false, false, false⟩

/-! ## The clean operation (`ha_backup_registry.clean`, lines 195-219). -/

/-- The comparison Python uses in `sorted(..., reverse=True)`: descending string
order. -/
def pyDescOrder (a b : String) : Prop := lexLe b.data a.data = true

instance : DecidableRel pyDescOrder := fun a b => instDecidableEqBool (lexLe b.data a.data) true

/-- `sorted(BACKUP_DIR.glob(...), reverse=True)`: Python sorting is stable, and any
stable sort produces the same list, so a stable insertion sort embeds it. -/
def sortBackupsDesc (files : List String) : List String := List.insertionSort pyDescOrder files

/-- Python slicing `l[k:]` for an arbitrary integer `k`. -/
def pySliceFrom {α : Type} (l : List α) (k : Int) : List α :=
  if 0 ≤ k then l.drop k.toNat else l.drop (l.length - (-k).toNat)

/-- `clean(keep)` on the globbed list of backup file names: returns the removed
files (in removal order) and the count the function returns, under the assumption
of the claim that each `unlink` succeeds. -/
def clean (files : List String) (keep : Int) : List String × Nat :=
  let backups := sortBackupsDesc files
  if (backups.length : Int) ≤ keep then ([], 0)
  else (pySliceFrom backups keep, (pySliceFrom backups keep).length)

/-! ## Hypotheses on registries -/

/-- The automation records of the registry carry pairwise distinct entity ids (the
entity registry treats `entity_id` as a key). -/
def AutoIdsDistinct (entities : List Entity) : Prop :=
  ∀ i : Nat, ∀ hi : i < entities.length, ∀ j : Nat, ∀ hj : j < entities.length,
    i ≠ j → isAutomation entities[i] = true → isAutomation entities[j] = true →
      entities[i].entity_id ≠ entities[j].entity_id

/-- No automation entity id ends in `"_2_2"`: the base of a `_2`-suffixed id is
never itself `_2`-suffixed. -/
def NoChained2 (entities : List Entity) : Prop :=
  ∀ e ∈ entities, isAutomation e = true → pyEndsWith e.entity_id "_2" = true →
    pyEndsWith (pyDropLast2 e.entity_id) "_2" = false

instance (entities : List Entity) : Decidable (AutoIdsDistinct entities) := by
  unfold AutoIdsDistinct
  infer_instance

instance (entities : List Entity) : Decidable (NoChained2 entities) := by
  unfold NoChained2
  infer_instance

/-! ## Expected-state functions for the duplicate-fix loop
These describe, for a processed prefix `L` of the `automations` items, which store
slot holds which record and which indices remain in the entity list. -/

/-- The input `unique_id` at store index `j`. -/
def uidAt (inp : List Entity) (j : Nat) : String :=
  ((inp[j]?).map Entity.unique_id).getD ""

/-- The index of the `_2` item of `L` (if any) whose merge writes store slot `k`. -/
def writeSource (autos L : List (String × Nat)) (k : Nat) : Option Nat :=
  L.findSome? (fun t =>
    if pyEndsWith t.1 "_2" = true ∧ autos.lookup (pyDropLast2 t.1) = some k then some t.2
    else none)

/-- The store indices the items of `L` remove from the entity list. -/
def removedSet (autos L : List (String × Nat)) : List Nat :=
  L.filterMap (fun t =>
    if pyEndsWith t.1 "_2" = true ∧ (autos.lookup (pyDropLast2 t.1)).isSome then some t.2
    else none)

/-- The record expected at store slot `k` after processing the items of `L`. -/
def expectedSlot (inp : List Entity) (autos L : List (String × Nat)) (k : Nat) : Option Entity :=
  (inp[k]?).map (fun e =>
    match writeSource autos L k with
    | some j => { e with unique_id := uidAt inp j }
    | none => e)

/-- The entity list expected after processing the items of `L`. -/
def expectedEs (inp : List Entity) (autos L : List (String × Nat)) : List Nat :=
  (List.range inp.length).filter (fun i => !(removedSet autos L).contains i)

/-! ## Concrete inputs used as counterexamples and witnesses -/

/-- Chained-suffix registry: `automation.x_2_2`, `automation.x_2`, `automation.x`. -/
def cexChainA : Entity := ⟨"automation.x_2_2", "a", none, none, [], []⟩

/-- The middle entry of the chained-suffix registry. -/
def cexChainB : Entity := ⟨"automation.x_2", "b", none, none, [], []⟩

/-- The base entry of the chained-suffix registry. -/
def cexChainC : Entity := ⟨"automation.x", "c", none, none, [], []⟩

/-- A registry with a chained `_2_2` suffix, in dictionary order A, B, C. -/
def cexChain : List Entity := [cexChainA, cexChainB, cexChainC]

/-- An automation whose entity id contains `"automation."` twice. -/
def cexGen : Entity := ⟨"automation.automation.x", "123", none, none, [], []⟩

/-- A non-automation record whose `unique_id` occurs in a migration mapping. -/
def cexSensor : Entity := ⟨"sensor.x", "123", none, none, [], []⟩

/-- Base entry of the cost family. -/
def famBase : Entity := ⟨"automation.x", "b", none, none, [], []⟩

/-- Padding entry of the cost family (not an automation). -/
def famPad : Entity := ⟨"sensor.pad", "p", none, none, [], []⟩

/-- Duplicate entry of the cost family. -/
def famDup : Entity := ⟨"automation.x_2", "d", none, none, [], []⟩

/-- A registry family on which the single removal of the duplicate-fix loop scans
`m + 2` list cells: the base, `m` padding records, then the `_2` duplicate. -/
def famInput (m : Nat) : List Entity := famBase :: (List.replicate m famPad ++ [famDup])

/-! ## Theorems for the straightforward claims -/

/-- Claim C5: the backup operation either returns the path of the newly created
backup file, whose content passed the JSON check, or returns `None`; whenever it
returns `None` no backup file content remains (a fetch failure leaves no file, a
parse failure unlinks the file before returning). -/
theorem backup_no_invalid_file (jsonOk : String → Bool) (ts : String) (fetched : Option String) :
    (∀ p, (backup jsonOk ts fetched).result = some p →
      p = backupPathFor ts ∧
        ∃ c, fetched = some c ∧ jsonOk c = true ∧
          (backup jsonOk ts fetched).fileContent = some c) ∧
    ((backup jsonOk ts fetched).result = none → (backup jsonOk ts fetched).fileContent = none) := by
  cases fetched with
  | none => exact ⟨fun p hp => by simp [backup] at hp, fun _ => rfl⟩
  | some c =>
    by_cases h : jsonOk c = true
    · refine ⟨fun p hp => ?_, fun hn => ?_⟩
      · simp [backup, h] at hp
        exact ⟨hp.symm, c, rfl, h, by simp [backup, h]⟩
      · simp [backup, h] at hn
    · have h' : jsonOk c = false := by
        cases hc : jsonOk c with
        | true => exact absurd hc h
        | false => rfl
      exact ⟨fun p hp => by simp [backup, h'] at hp, fun _ => by simp [backup, h']⟩

/-- Witness for claim C5 at a concrete parser, timestamp and fetched content. -/
theorem backup_no_invalid_file_witness :
    backupPathFor "20260101_000000" = backupPathFor "20260101_000000" ∧
      ∃ c, (some "{}" : Option String) = some c ∧ (fun _ : String => true) c = true ∧
        (backup (fun _ : String => true) "20260101_000000" (some "{}")).fileContent = some c :=
  (backup_no_invalid_file (fun _ : String => true) "20260101_000000" (some "{}")).1
    (backupPathFor "20260101_000000") (by decide)

/-- Claim C6: the restore operation fails without touching the remote registry
unless the backup file exists, its content passes the JSON check, and the user
confirms with `y`; the upload is attempted only when all three hold, and the remote
registry is replaced only when additionally the upload and the move succeed. -/
theorem restore_guarded (jsonOk : String → Bool) (env : RestoreEnv) :
    (¬(env.backupExists = true ∧ jsonOk env.backupContent = true ∧
        pyLower env.confirmInput = "y") →
      restore jsonOk env = ⟨false, false, false⟩) ∧
    ((restore jsonOk env).uploadAttempted = true →
      env.backupExists = true ∧ jsonOk env.backupContent = true ∧
        pyLower env.confirmInput = "y") ∧
    ((restore jsonOk env).registryReplaced = true →
      env.uploadOk = true ∧ env.moveOk = true ∧ (restore jsonOk env).success = true) := by
  by_cases h1 : env.backupExists = true
  · by_cases h2 : jsonOk env.backupContent = true
    · by_cases h3 : pyLower env.confirmInput = "y"
      · by_cases h4 : env.uploadOk = true
        · by_cases h5 : env.moveOk = true
          · refine ⟨fun hc => absurd ⟨h1, h2, h3⟩ hc, fun _ => ⟨h1, h2, h3⟩, fun _ => ?_⟩
            exact ⟨h4, h5, by simp [restore, h1, h2, h3, h4, h5]⟩
          · refine ⟨fun hc => absurd ⟨h1, h2, h3⟩ hc, fun _ => ⟨h1, h2, h3⟩, fun hr => ?_⟩
            simp [restore, h1, h2, h3, h4, h5] at hr
        · refine ⟨fun hc => absurd ⟨h1, h2, h3⟩ hc, fun _ => ⟨h1, h2, h3⟩, fun hr => ?_⟩
          simp [restore, h1, h2, h3, h4] at hr
      · refine ⟨fun _ => by simp [restore, h1, h2, h3], fun hu => ?_, fun hr => ?_⟩
        · simp [restore, h1, h2, h3] at hu
        · simp [restore, h1, h2, h3] at hr
    · refine ⟨fun _ => by simp [restore, h1, h2], fun hu => ?_, fun hr => ?_⟩
      · simp [restore, h1, h2] at hu
      · simp [restore, h1, h2] at hr
  · refine ⟨fun _ => by simp [restore, h1], fun hu => ?_, fun hr => ?_⟩
    · simp [restore, h1] at hu
    · simp [restore, h1] at hr

/-- Witness for claim C6: with a missing backup file the trace is the all-false
failure trace. -/
theorem restore_guarded_witness :
    restore (fun _ => true)
      ⟨false, "{}", "y", true, true, true⟩ = ⟨false, false, false⟩ :=
  (restore_guarded (fun _ => true) ⟨false, "{}", "y", true, true, true⟩).1 (by decide)

/-- Claim C7: the registry transformation of the duplicate-fix operation is a pure
function of the input entity list; two runs on equal registries produce equal
outputs. -/
theorem fix_registry_deterministic (r1 r2 : List Entity) (h : r1 = r2) :
    fixEntities r1 = fixEntities r2 := by rw [h]

/-- Witness for claim C7 at a concrete registry. -/
theorem fix_registry_deterministic_witness :
    fixEntities [⟨"automation.a", "1", none, none, [], []⟩] =
      fixEntities [⟨"automation.a", "1", none, none, [], []⟩] :=
  fix_registry_deterministic _ _ rfl

/-- Claim C9: with zero automation records every coverage percentage of the stats
operation is 0, via the guard `if total else 0`; no division by zero is performed. -/
theorem stats_no_div_by_zero (es : List Entity)
    (h : (es.filter (fun e => isAutomation e)).length = 0) :
    statsCoverage es = (0, 0, 0) := by
  simp only [statsCoverage, h, pctOrZero, ne_eq, not_true_eq_false, if_false,
    reduceIte, not_false_eq_true]

/-- Witness for claim C9 on a registry with no automation records. -/
theorem stats_no_div_by_zero_witness :
    statsCoverage [⟨"sensor.a", "1", some "area", none, [], []⟩] = (0, 0, 0) :=
  stats_no_div_by_zero [⟨"sensor.a", "1", some "area", none, [], []⟩] (by decide)

/-! ## Association-list and dictionary lemmas -/

theorem lookup_cons_self {β : Type} (k : String) (b : β) (l : List (String × β)) :
    List.lookup k ((k, b) :: l) = some b := by
  rw [List.lookup_cons, show (k == k) = true from beq_self_eq_true k]

theorem lookup_cons_ne {β : Type} {k a : String} (h : k ≠ a) (b : β) (l : List (String × β)) :
    List.lookup k ((a, b) :: l) = List.lookup k l := by
  rw [List.lookup_cons, show (k == a) = false from beq_eq_false_iff_ne.mpr h]

theorem pyDictInsert_lookup {β : Type} (d : List (String × β)) (k k' : String) (v : β) :
    (pyDictInsert d k v).lookup k' = if k' = k then some v else d.lookup k' := by
  induction d with
  | nil =>
    by_cases h : k' = k
    · subst h
      show List.lookup k' [(k', v)] = _
      rw [lookup_cons_self, if_pos rfl]
    · show List.lookup k' [(k, v)] = _
      rw [lookup_cons_ne h, if_neg h]
  | cons q rest ih =>
    obtain ⟨a, b⟩ := q
    by_cases hak : a = k
    · subst hak
      rw [show pyDictInsert ((a, b) :: rest) a v = (a, v) :: rest from by simp [pyDictInsert]]
      by_cases h : k' = a
      · subst h
        rw [lookup_cons_self, if_pos rfl]
      · rw [lookup_cons_ne h, if_neg h, lookup_cons_ne h]
    · rw [show pyDictInsert ((a, b) :: rest) k v = (a, b) :: pyDictInsert rest k v from by
        simp [pyDictInsert, hak]]
      by_cases h : k' = a
      · have hkk : ¬k' = k := fun he => hak (h.symm.trans he)
        rw [if_neg hkk, h, lookup_cons_self, lookup_cons_self]
      · rw [lookup_cons_ne h, ih]
        by_cases h2 : k' = k
        · rw [if_pos h2, if_pos h2]
        · rw [if_neg h2, if_neg h2, lookup_cons_ne h]

theorem pyDictInsert_mem {β : Type} {d : List (String × β)} {k : String} {v : β}
    {p : String × β} (h : p ∈ pyDictInsert d k v) : p ∈ d ∨ p = (k, v) := by
  induction d with
  | nil =>
    right
    simpa [pyDictInsert] using h
  | cons q rest ih =>
    obtain ⟨a, b⟩ := q
    by_cases hak : a = k
    · subst hak
      rw [show pyDictInsert ((a, b) :: rest) a v = (a, v) :: rest from by
        simp [pyDictInsert]] at h
      rcases List.mem_cons.mp h with h' | h'
      · right; exact h'
      · left; exact List.mem_cons_of_mem _ h'
    · rw [show pyDictInsert ((a, b) :: rest) k v = (a, b) :: pyDictInsert rest k v from by
        simp [pyDictInsert, hak]] at h
      rcases List.mem_cons.mp h with h' | h'
      · left; exact h' ▸ List.mem_cons_self _ _
      · rcases ih h' with h2 | h2
        · left; exact List.mem_cons_of_mem _ h2
        · right; exact h2

theorem pyDictInsert_keys_sub {β : Type} {d : List (String × β)} {k : String} {v : β}
    {x : String} (h : x ∈ (pyDictInsert d k v).map Prod.fst) : x ∈ d.map Prod.fst ∨ x = k := by
  rw [List.mem_map] at h
  obtain ⟨p, hp, hx⟩ := h
  rcases pyDictInsert_mem hp with h' | h'
  · left; exact List.mem_map.mpr ⟨p, h', hx⟩
  · right
    rw [h'] at hx
    exact hx.symm

theorem pyDictInsert_keys_nodup {β : Type} {d : List (String × β)}
    (h : (d.map Prod.fst).Nodup) (k : String) (v : β) :
    ((pyDictInsert d k v).map Prod.fst).Nodup := by
  induction d with
  | nil => simp [pyDictInsert]
  | cons q rest ih =>
    obtain ⟨a, b⟩ := q
    rw [List.map_cons, List.nodup_cons] at h
    by_cases hak : a = k
    · subst hak
      rw [show pyDictInsert ((a, b) :: rest) a v = (a, v) :: rest from by simp [pyDictInsert]]
      rw [List.map_cons, List.nodup_cons]
      exact ⟨h.1, h.2⟩
    · rw [show pyDictInsert ((a, b) :: rest) k v = (a, b) :: pyDictInsert rest k v from by
        simp [pyDictInsert, hak]]
      rw [List.map_cons, List.nodup_cons]
      refine ⟨fun hin => ?_, ih h.2⟩
      rcases pyDictInsert_keys_sub hin with h' | h'
      · exact h.1 h'
      · exact hak h'

theorem pyDictInsert_length {β : Type} (d : List (String × β)) (k : String) (v : β) :
    (pyDictInsert d k v).length ≤ d.length + 1 := by
  induction d with
  | nil => simp [pyDictInsert]
  | cons q rest ih =>
    obtain ⟨a, b⟩ := q
    by_cases hak : a = k
    · subst hak
      simp [pyDictInsert]
    · rw [show pyDictInsert ((a, b) :: rest) k v = (a, b) :: pyDictInsert rest k v from by
        simp [pyDictInsert, hak]]
      simp only [List.length_cons]
      omega

theorem lookup_mem {β : Type} {d : List (String × β)} {k : String} {v : β}
    (h : List.lookup k d = some v) : (k, v) ∈ d := by
  induction d with
  | nil => exact absurd h (by simp [List.lookup])
  | cons q rest ih =>
    obtain ⟨a, b⟩ := q
    by_cases hak : k = a
    · subst hak
      rw [lookup_cons_self] at h
      injection h with h'
      exact h' ▸ List.mem_cons_self _ _
    · rw [lookup_cons_ne hak] at h
      exact List.mem_cons_of_mem _ (ih h)

theorem lookup_eq_none_iff {β : Type} (d : List (String × β)) (k : String) :
    List.lookup k d = none ↔ ∀ v, (k, v) ∉ d := by
  induction d with
  | nil => simp [List.lookup]
  | cons q rest ih =>
    obtain ⟨a, b⟩ := q
    by_cases hak : k = a
    · subst hak
      rw [lookup_cons_self]
      refine ⟨fun h => absurd h (by simp), fun h => absurd (List.mem_cons_self (k, b) rest) (h b)⟩
    · rw [lookup_cons_ne hak, ih]
      refine ⟨fun h v hv => ?_, fun h v hv => h v (List.mem_cons_of_mem _ hv)⟩
      rcases List.mem_cons.mp hv with h' | h'
      · exact hak (congrArg Prod.fst h')
      · exact h v h'

theorem keys_nodup_value_unique {β : Type} {L : List (String × β)}
    (h : (L.map Prod.fst).Nodup) {a : String} {b c : β}
    (hb : (a, b) ∈ L) (hc : (a, c) ∈ L) : b = c := by
  induction L with
  | nil => cases hb
  | cons q rest ih =>
    rw [List.map_cons, List.nodup_cons] at h
    rcases List.mem_cons.mp hb with h1 | h1 <;> rcases List.mem_cons.mp hc with h2 | h2
    · exact congrArg Prod.snd (h1.trans h2.symm)
    · exfalso
      apply h.1
      exact List.mem_map.mpr ⟨(a, c), h2, by rw [← h1]⟩
    · exfalso
      apply h.1
      exact List.mem_map.mpr ⟨(a, b), h1, by rw [← h2]⟩
    · exact ih h.2 h1 h2

theorem findSome?_of_unique {α β : Type} {f : α → Option β} {L : List α} {j : β}
    (hex : ∃ a ∈ L, f a = some j) (huniq : ∀ a ∈ L, ∀ v, f a = some v → v = j) :
    List.findSome? f L = some j := by
  induction L with
  | nil =>
    obtain ⟨a, ha, _⟩ := hex
    cases ha
  | cons x rest ih =>
    rcases hx : f x with _ | v
    · rw [List.findSome?_cons, hx]
      apply ih
      · obtain ⟨a, ha, hfa⟩ := hex
        rcases List.mem_cons.mp ha with h' | h'
        · exact absurd (h' ▸ hfa) (by rw [hx]; simp)
        · exact ⟨a, h', hfa⟩
      · exact fun a ha v hv => huniq a (List.mem_cons_of_mem _ ha) v hv
    · rw [List.findSome?_cons, hx]
      exact congrArg some (huniq x (List.mem_cons_self _ _) v hx)

/-! ## Lemmas about `pyListRemove` -/

theorem pyListRemove_sublist (store : List Entity) (es : List Nat) (j : Nat) :
    (pyListRemove store es j).Sublist es := by
  induction es with
  | nil => simp [pyListRemove]
  | cons i rest ih =>
    by_cases h : store[i]? = store[j]?
    · simp only [pyListRemove, if_pos h]
      exact List.sublist_cons_self i rest
    · simp only [pyListRemove, if_neg h]
      exact ih.cons₂ i

theorem pyListRemove_mem (store : List Entity) {es : List Nat} {i : Nat} (j : Nat)
    (hi : i ∈ es) (hne : store[i]? ≠ store[j]?) : i ∈ pyListRemove store es j := by
  induction es with
  | nil => cases hi
  | cons x rest ih =>
    by_cases h : store[x]? = store[j]?
    · simp only [pyListRemove, if_pos h]
      rcases List.mem_cons.mp hi with h' | h'
      · exact absurd (h' ▸ h) hne
      · exact h'
    · simp only [pyListRemove, if_neg h]
      rcases List.mem_cons.mp hi with h' | h'
      · exact h' ▸ List.mem_cons_self _ _
      · exact List.mem_cons_of_mem _ (ih h')

theorem pyListRemove_eq_erase (store : List Entity) {es : List Nat} {j : Nat}
    (h : ∀ i ∈ es, store[i]? = store[j]? ↔ i = j) :
    pyListRemove store es j = es.erase j := by
  induction es with
  | nil => rfl
  | cons x rest ih =>
    by_cases hx : store[x]? = store[j]?
    · have hxj : x = j := (h x (List.mem_cons_self _ _)).mp hx
      subst hxj
      rw [List.erase_cons_head]
      simp [pyListRemove]
    · have hxj : x ≠ j := fun he => hx ((h x (List.mem_cons_self _ _)).mpr he)
      rw [show pyListRemove store (x :: rest) j = x :: pyListRemove store rest j from by
        simp [pyListRemove, hx]]
      rw [List.erase_cons_tail (by simpa using hxj)]
      rw [ih fun i hi => h i (List.mem_cons_of_mem _ hi)]

theorem pyListRemove_length_le (store : List Entity) (es : List Nat) (j : Nat) :
    (pyListRemove store es j).length ≤ es.length :=
  (pyListRemove_sublist store es j).length_le

theorem pyListRemoveScan_le (store : List Entity) (es : List Nat) (j : Nat) :
    pyListRemoveScan store es j ≤ es.length := by
  induction es with
  | nil => simp [pyListRemoveScan]
  | cons x rest ih =>
    by_cases h : store[x]? = store[j]?
    · simp only [pyListRemoveScan, if_pos h, List.length_cons]
      omega
    · simp only [pyListRemoveScan, if_neg h, List.length_cons]
      omega

theorem pyListRemoveScan_concat (store : List Entity) (pre : List Nat) (j : Nat)
    (h : ∀ i ∈ pre, store[i]? ≠ store[j]?) :
    pyListRemoveScan store (pre ++ [j]) j = pre.length + 1 := by
  induction pre with
  | nil => simp [pyListRemoveScan]
  | cons x rest ih =>
    have hx := h x (List.mem_cons_self _ _)
    have ihh := ih fun i hi => h i (List.mem_cons_of_mem _ hi)
    have step : pyListRemoveScan store ((x :: rest) ++ [j]) j
        = 1 + pyListRemoveScan store (rest ++ [j]) j := by
      rw [List.cons_append]
      simp only [pyListRemoveScan, if_neg hx]
    rw [step, ihh, List.length_cons]
    omega

/-! ## Lemmas about the automations dictionary -/

theorem buildAutomationsAux_mem {l : List Entity} :
    ∀ {i : Nat} {d : List (String × Nat)} {p : String × Nat},
      p ∈ buildAutomationsAux i l d →
      p ∈ d ∨ ∃ m e, l[m]? = some e ∧ isAutomation e = true ∧ p = (e.entity_id, i + m) := by
  induction l with
  | nil => exact fun h => Or.inl h
  | cons e0 rest ih =>
    intro i d p h
    rw [show buildAutomationsAux i (e0 :: rest) d
        = buildAutomationsAux (i + 1) rest
            (if isAutomation e0 then pyDictInsert d e0.entity_id i else d) from rfl] at h
    rcases ih h with h' | ⟨m, e, hm, hauto, hp⟩
    · by_cases ha : isAutomation e0
      · rw [if_pos ha] at h'
        rcases pyDictInsert_mem h' with h2 | h2
        · exact Or.inl h2
        · exact Or.inr ⟨0, e0, by simp, ha, by rw [h2, Nat.add_zero]⟩
      · rw [if_neg ha] at h'
        exact Or.inl h'
    · exact Or.inr ⟨m + 1, e, by simpa using hm, hauto,
        by rw [hp, show i + 1 + m = i + (m + 1) from by omega]⟩

theorem buildAutomations_mem {inp : List Entity} {k : String} {v : Nat}
    (h : (k, v) ∈ buildAutomations inp) :
    ∃ e, inp[v]? = some e ∧ e.entity_id = k ∧ isAutomation e = true := by
  rcases buildAutomationsAux_mem h with h' | ⟨m, e, hm, hauto, hp⟩
  · cases h'
  · rw [Prod.mk.injEq] at hp
    obtain ⟨h1, h2⟩ := hp
    refine ⟨e, ?_, h1.symm, hauto⟩
    rw [h2, Nat.zero_add]
    exact hm

theorem buildAutomationsAux_keys_nodup :
    ∀ (l : List Entity) (i : Nat) (d : List (String × Nat)),
      (d.map Prod.fst).Nodup → ((buildAutomationsAux i l d).map Prod.fst).Nodup := by
  intro l
  induction l with
  | nil => exact fun i d h => h
  | cons e0 rest ih =>
    intro i d h
    rw [show buildAutomationsAux i (e0 :: rest) d
        = buildAutomationsAux (i + 1) rest
            (if isAutomation e0 then pyDictInsert d e0.entity_id i else d) from rfl]
    by_cases ha : isAutomation e0
    · rw [if_pos ha]
      exact ih _ _ (pyDictInsert_keys_nodup h _ _)
    · rw [if_neg ha]
      exact ih _ _ h

theorem buildAutomations_keys_nodup (inp : List Entity) :
    ((buildAutomations inp).map Prod.fst).Nodup :=
  buildAutomationsAux_keys_nodup inp 0 [] (by simp)

theorem buildAutomationsAux_lookup_stable :
    ∀ (l : List Entity) (i : Nat) (d : List (String × Nat)) (key : String),
      (∀ e ∈ l, isAutomation e = true → e.entity_id ≠ key) →
      (buildAutomationsAux i l d).lookup key = d.lookup key := by
  intro l
  induction l with
  | nil => exact fun i d key _ => rfl
  | cons e0 rest ih =>
    intro i d key h
    rw [show buildAutomationsAux i (e0 :: rest) d
        = buildAutomationsAux (i + 1) rest
            (if isAutomation e0 then pyDictInsert d e0.entity_id i else d) from rfl]
    rw [ih _ _ _ fun e he hae => h e (List.mem_cons_of_mem _ he) hae]
    by_cases ha : isAutomation e0
    · rw [if_pos ha, pyDictInsert_lookup,
        if_neg fun he => h e0 (List.mem_cons_self _ _) ha he.symm]
    · rw [if_neg ha]

theorem buildAutomationsAux_lookup_found :
    ∀ (l : List Entity) (i : Nat) (d : List (String × Nat)) (j : Nat) (e : Entity),
      l[j]? = some e → isAutomation e = true →
      (∀ m e', l[m]? = some e' → isAutomation e' = true → m ≠ j →
        e'.entity_id ≠ e.entity_id) →
      (buildAutomationsAux i l d).lookup e.entity_id = some (i + j) := by
  intro l
  induction l with
  | nil =>
    intro i d j e hj
    simp at hj
  | cons e0 rest ih =>
    intro i d j e hj hauto huniq
    rw [show buildAutomationsAux i (e0 :: rest) d
        = buildAutomationsAux (i + 1) rest
            (if isAutomation e0 then pyDictInsert d e0.entity_id i else d) from rfl]
    cases j with
    | zero =>
      rw [List.getElem?_cons_zero] at hj
      injection hj with he0
      subst he0
      rw [buildAutomationsAux_lookup_stable rest (i + 1) _ e0.entity_id fun e' he' hae' => ?_]
      · rw [if_pos hauto, pyDictInsert_lookup, if_pos rfl, Nat.add_zero]
      · obtain ⟨m, hm⟩ := List.mem_iff_getElem?.mp he'
        exact huniq (m + 1) e' (by simpa using hm) hae' (Nat.succ_ne_zero m)
    | succ j' =>
      rw [List.getElem?_cons_succ] at hj
      rw [ih (i + 1) _ j' e hj hauto fun m e' hm hae' hmj =>
        huniq (m + 1) e' (by simpa using hm) hae' (by omega)]
      rw [show i + 1 + j' = i + (j' + 1) from by omega]

theorem buildAutomations_lookup_found {inp : List Entity} (H1 : AutoIdsDistinct inp)
    {j : Nat} {e : Entity} (hj : inp[j]? = some e) (hauto : isAutomation e = true) :
    (buildAutomations inp).lookup e.entity_id = some j := by
  have h := buildAutomationsAux_lookup_found inp 0 [] j e hj hauto ?u
  · simpa using h
  case u =>
    intro m e' hm hae' hmj
    obtain ⟨hmlt, hme⟩ := List.getElem?_eq_some.mp hm
    obtain ⟨hjlt, hje⟩ := List.getElem?_eq_some.mp hj
    have := H1 m hmlt j hjlt hmj (by rw [hme]; exact hae') (by rw [hje]; exact hauto)
    rw [hme, hje] at this
    exact this

theorem buildAutomations_lookup_none {inp : List Entity} {key : String}
    (h : ∀ (k : Nat) (b : Entity), inp[k]? = some b → isAutomation b = true →
      b.entity_id ≠ key) :
    (buildAutomations inp).lookup key = none := by
  cases hl : (buildAutomations inp).lookup key with
  | none => rfl
  | some v =>
    obtain ⟨e, he, heid, hauto⟩ := buildAutomations_mem (lookup_mem hl)
    exact absurd heid (h v e he hauto)

/-! ## Single-step lemmas for the duplicate-fix loop -/

theorem fixStep_cases (autos : List (String × Nat)) (s : List Entity × List Nat)
    (t : String × Nat) :
    fixStep autos s t = s ∨
    ∃ k oldE entry,
      pyEndsWith t.1 "_2" = true ∧ autos.lookup (pyDropLast2 t.1) = some k ∧
      s.1[k]? = some oldE ∧ s.1[t.2]? = some entry ∧
      fixStep autos s t =
        (s.1.set k { oldE with unique_id := entry.unique_id },
         pyListRemove (s.1.set k { oldE with unique_id := entry.unique_id }) s.2 t.2) := by
  unfold fixStep
  split
  next h2 =>
    split
    next k hlk =>
      split
      next oldE entry hk hj => exact Or.inr ⟨k, oldE, entry, h2, hlk, hk, hj, rfl⟩
      next => exact Or.inl rfl
    next hlk => exact Or.inl rfl
  next h2 => exact Or.inl rfl

theorem fixStep_stripUid (autos : List (String × Nat)) (s : List Entity × List Nat)
    (t : String × Nat) (m : Nat) :
    ((fixStep autos s t).1[m]?).map stripUniqueId = (s.1[m]?).map stripUniqueId := by
  rcases fixStep_cases autos s t with h | ⟨k, oldE, entry, _, _, hk, _, h⟩
  · rw [h]
  · rw [h]
    by_cases hm : k = m
    · subst hm
      have hlt : k < s.1.length := (List.getElem?_eq_some.mp hk).1
      rw [List.getElem?_set_self hlt, hk]
      rfl
    · rw [List.getElem?_set_ne hm]

theorem fixStep_entity_id {autos : List (String × Nat)} {s : List Entity × List Nat}
    {t : String × Nat} {m : Nat} {e e' : Entity} (hm : s.1[m]? = some e)
    (hm' : (fixStep autos s t).1[m]? = some e') : e'.entity_id = e.entity_id := by
  have h := fixStep_stripUid autos s t m
  rw [hm, hm'] at h
  have h2 : stripUniqueId e' = stripUniqueId e := by
    injection h
  exact (congrArg Entity.entity_id h2 :
    (stripUniqueId e').entity_id = (stripUniqueId e).entity_id)

/-! ## Fold invariants for the duplicate-fix loop -/

theorem fixFold_stripUid (autos : List (String × Nat)) :
    ∀ (L : List (String × Nat)) (s : List Entity × List Nat) (i : Nat),
      ((L.foldl (fixStep autos) s).1[i]?).map stripUniqueId = (s.1[i]?).map stripUniqueId := by
  intro L
  induction L with
  | nil => exact fun s i => rfl
  | cons t R ih =>
    intro s i
    rw [List.foldl_cons, ih, fixStep_stripUid]

theorem fixFold_untouched (inp : List Entity) :
    ∀ (L : List (String × Nat)) (s : List Entity × List Nat) (i : Nat),
      (∀ t ∈ L, t ∈ buildAutomations inp) → i ∉ mergeTargets inp →
      (L.foldl (fixStep (buildAutomations inp)) s).1[i]? = s.1[i]? := by
  intro L
  induction L with
  | nil => exact fun s i _ _ => rfl
  | cons t R ih =>
    intro s i hmem hi
    rw [List.foldl_cons, ih _ _ (fun t' ht' => hmem t' (List.mem_cons_of_mem _ ht')) hi]
    rcases fixStep_cases (buildAutomations inp) s t with h | ⟨k, oldE, entry, h2, hlk, hk, hj, h⟩
    · rw [h]
    · rw [h]
      have hkmem : k ∈ mergeTargets inp := by
        rw [mergeTargets, List.mem_filterMap]
        exact ⟨t, hmem t (List.mem_cons_self _ _), by rw [if_pos h2]; exact hlk⟩
      have : k ≠ i := fun he => hi (he ▸ hkmem)
      rw [List.getElem?_set_ne this]

theorem fixFold_es_sublist (autos : List (String × Nat)) :
    ∀ (L : List (String × Nat)) (s : List Entity × List Nat),
      ((L.foldl (fixStep autos) s).2).Sublist s.2 := by
  intro L
  induction L with
  | nil => exact fun s => List.Sublist.refl _
  | cons t R ih =>
    intro s
    rw [List.foldl_cons]
    refine (ih _).trans ?_
    rcases fixStep_cases autos s t with h | ⟨k, oldE, entry, _, _, _, _, h⟩
    · rw [h]
    · rw [h]
      exact pyListRemove_sublist _ _ _

theorem fixFold_nonauto_stays (inp : List Entity) :
    ∀ (L : List (String × Nat)) (s : List Entity × List Nat) (i : Nat) (e : Entity),
      (∀ t ∈ L, t ∈ buildAutomations inp) →
      (∀ m : Nat, (s.1[m]?).map stripUniqueId = (inp[m]?).map stripUniqueId) →
      inp[i]? = some e → isAutomation e = false → i ∈ s.2 →
      i ∈ (L.foldl (fixStep (buildAutomations inp)) s).2 := by
  intro L
  induction L with
  | nil => exact fun s i e _ _ _ _ hin => hin
  | cons t R ih =>
    intro s i e hmem hstrip hie hna hin
    rw [List.foldl_cons]
    refine ih _ i e (fun t' ht' => hmem t' (List.mem_cons_of_mem _ ht'))
      (fun m => by rw [fixStep_stripUid, hstrip]) hie hna ?_
    rcases fixStep_cases (buildAutomations inp) s t with h | ⟨k, oldE, entry, h2, hlk, hk, hj, h⟩
    · rw [h]
      exact hin
    · obtain ⟨ej, hje, hjeid, hjauto⟩ := buildAutomations_mem
        (show (t.1, t.2) ∈ buildAutomations inp from hmem t (List.mem_cons_self _ _))
      rw [h]
      refine pyListRemove_mem _ t.2 hin fun heq => ?_
      have hstrip' : ∀ m : Nat,
          ((s.1.set k { oldE with unique_id := entry.unique_id })[m]?).map stripUniqueId
            = (inp[m]?).map stripUniqueId := by
        intro m
        have hs := fixStep_stripUid (buildAutomations inp) s t m
        rw [h] at hs
        exact hs.trans (hstrip m)
      have hi' := hstrip' i
      have hj' := hstrip' t.2
      rw [hie] at hi'
      rw [hje] at hj'
      rw [heq] at hi'
      have hee : stripUniqueId e = stripUniqueId ej := by
        have := hi'.symm.trans hj'
        injection this
      have heid : e.entity_id = ej.entity_id :=
        (congrArg Entity.entity_id hee :
          (stripUniqueId e).entity_id = (stripUniqueId ej).entity_id)
      have hea : isAutomation e = true := by
        rw [show isAutomation e = pyStartsWith e.entity_id "automation." from rfl, heid]
        exact hjauto
      rw [hna] at hea
      exact Bool.false_ne_true hea

theorem executeUpdateEntities_getElem (mapping : List (String × String)) :
    ∀ (es : List Entity) (i : Nat),
      (executeUpdateEntities mapping es)[i]? =
        (es[i]?).map (fun e =>
          match mapping.lookup e.unique_id with
          | some nid => { e with unique_id := nid }
          | none => e) := by
  intro es
  induction es with
  | nil => intro i; rfl
  | cons e rest ih =>
    intro i
    rw [show executeUpdateEntities mapping (e :: rest)
        = (match mapping.lookup e.unique_id with
           | some nid => { e with unique_id := nid }
           | none => e) :: executeUpdateEntities mapping rest from rfl]
    cases i with
    | zero =>
      rw [List.getElem?_cons_zero, List.getElem?_cons_zero]
      rfl
    | succ i' =>
      rw [List.getElem?_cons_succ, List.getElem?_cons_succ, ih]

/-- Claim C2: the duplicate-fix operation only ever changes `unique_id` fields:
every store slot agrees with its input record on every field other than
`unique_id`; every slot that is not a merge target is entirely unchanged; and the
final entity list is a subsequence of the original positions, so every record that
is neither a merged base nor removed passes through entirely unchanged. -/
theorem fix_registry_metadata_frame (inp : List Entity) :
    (∀ i : Nat, ((fixRun inp).1[i]?).map stripUniqueId = (inp[i]?).map stripUniqueId) ∧
    (∀ i : Nat, i ∉ mergeTargets inp → (fixRun inp).1[i]? = inp[i]?) ∧
    (fixRun inp).2.Sublist (List.range inp.length) := by
  refine ⟨fun i => ?_, fun i hi => ?_, ?_⟩
  · exact fixFold_stripUid (buildAutomations inp) (buildAutomations inp)
      (inp, List.range inp.length) i
  · exact fixFold_untouched inp (buildAutomations inp) (inp, List.range inp.length) i
      (fun t ht => ht) hi
  · exact fixFold_es_sublist (buildAutomations inp) (buildAutomations inp)
      (inp, List.range inp.length)

/-- Witness for claim C2 on a concrete two-record registry. -/
theorem fix_registry_metadata_frame_witness :
    (((fixRun [famBase, famDup]).1[0]?).map stripUniqueId
      = (([famBase, famDup] : List Entity)[0]?).map stripUniqueId) ∧
    (fixRun [famBase, famDup]).1[2]? = ([famBase, famDup] : List Entity)[2]? ∧
    (fixRun [famBase, famDup]).2.Sublist
      (List.range ([famBase, famDup] : List Entity).length) := by
  have h := fix_registry_metadata_frame [famBase, famDup]
  exact ⟨h.1 0, h.2.1 2 (by decide), h.2.2⟩

/-- Claim C3 (amended): the duplicate-fix operation mutates and removes only
records selected by the `automation.` prefix of their entity id — every
non-automation record keeps its slot unchanged, survives the removals, and appears
in the output; the rewrite of the execute migration, by contrast, selects records by
`unique_id` membership in the mapping, regardless of their entity id. -/
theorem fix_and_execute_selection (inp : List Entity) (mapping : List (String × String))
    (es : List Entity) :
    (∀ (i : Nat) (e : Entity), inp[i]? = some e → isAutomation e = false →
      (fixRun inp).1[i]? = some e ∧ i ∈ (fixRun inp).2 ∧ e ∈ fixEntities inp) ∧
    (∀ (i : Nat) (e : Entity), es[i]? = some e → mapping.lookup e.unique_id = none →
      (executeUpdateEntities mapping es)[i]? = some e) ∧
    (∀ (i : Nat) (e : Entity) (nid : String), es[i]? = some e →
      mapping.lookup e.unique_id = some nid →
      (executeUpdateEntities mapping es)[i]? = some { e with unique_id := nid }) := by
  refine ⟨fun i e hie hna => ?_, fun i e hie hnone => ?_, fun i e nid hie hsome => ?_⟩
  · have hslot : (fixRun inp).1[i]? = inp[i]? := by
      refine fixFold_untouched inp (buildAutomations inp) (inp, List.range inp.length) i
        (fun t ht => ht) fun hmem => ?_
      rw [mergeTargets, List.mem_filterMap] at hmem
      obtain ⟨t, _htmem, hft⟩ := hmem
      by_cases h2 : pyEndsWith t.1 "_2" = true
      · rw [if_pos h2] at hft
        obtain ⟨e', he', _heid, hauto⟩ := buildAutomations_mem (lookup_mem hft)
        rw [hie] at he'
        injection he' with he'
        rw [← he'] at hauto
        rw [hna] at hauto
        exact Bool.false_ne_true hauto
      · rw [if_neg h2] at hft
        exact Option.noConfusion hft
    have hmemes : i ∈ (fixRun inp).2 := by
      refine fixFold_nonauto_stays inp (buildAutomations inp) (inp, List.range inp.length) i e
        (fun t ht => ht) (fun m => rfl) hie hna ?_
      exact List.mem_range.mpr (List.getElem?_eq_some.mp hie).1
    refine ⟨by rw [hslot]; exact hie, hmemes, ?_⟩
    rw [fixEntities, List.mem_filterMap]
    exact ⟨i, hmemes, by rw [hslot]; exact hie⟩
  · rw [executeUpdateEntities_getElem, hie]
    simp [hnone]
  · rw [executeUpdateEntities_getElem, hie]
    simp [hsome]

/-- Witness for claim C3 at a concrete registry, mapping and entity list. -/
theorem fix_and_execute_selection_witness :
    ((fixRun [cexSensor]).1[0]? = some cexSensor ∧ 0 ∈ (fixRun [cexSensor]).2 ∧
      cexSensor ∈ fixEntities [cexSensor]) ∧
    (executeUpdateEntities [("123", "kitchen")]
      [cexSensor, ⟨"sensor.y", "777", none, none, [], []⟩])[1]?
      = some ⟨"sensor.y", "777", none, none, [], []⟩ ∧
    (executeUpdateEntities [("123", "kitchen")]
      [cexSensor, ⟨"sensor.y", "777", none, none, [], []⟩])[0]?
      = some { cexSensor with unique_id := "kitchen" } := by
  have h := fix_and_execute_selection [cexSensor] [("123", "kitchen")]
    [cexSensor, ⟨"sensor.y", "777", none, none, [], []⟩]
  exact ⟨h.1 0 cexSensor (by decide) (by decide),
    h.2.1 1 ⟨"sensor.y", "777", none, none, [], []⟩ (by decide) (by decide),
    h.2.2 0 cexSensor "kitchen" (by decide) (by decide)⟩

/-- Counterexample to claim C3 as frozen: the unique-id rewrite of the execute
migration modifies a record whose entity id does not start with `automation.` — a
sensor whose `unique_id` happens to be a key of the mapping is rewritten. -/
theorem execute_modifies_nonautomation_cex :
    isAutomation cexSensor = false ∧
    executeUpdateEntities [("123", "kitchen_lights")] [cexSensor] ≠ [cexSensor] :=
  ⟨by decide, by decide⟩

/-! ## Cost of the duplicate-fix loop (claim C4) -/

theorem famInput_length (m : Nat) : (famInput m).length = m + 2 := by
  simp [famInput]

theorem famInput_getElem_last (m : Nat) : (famInput m)[m + 1]? = some famDup := by
  rw [famInput, List.getElem?_cons_succ, List.getElem?_append, List.length_replicate]
  rw [if_neg (lt_irrefl m), Nat.sub_self, List.getElem?_cons_zero]

theorem famInput_getElem_mid (m i : Nat) (h1 : 1 ≤ i) (h2 : i ≤ m) :
    (famInput m)[i]? = some famPad := by
  cases i with
  | zero => exact absurd h1 (by omega)
  | succ i' =>
    rw [famInput, List.getElem?_cons_succ, List.getElem?_append, List.length_replicate,
      if_pos (by omega : i' < m), List.getElem?_replicate, if_pos (by omega : i' < m)]

theorem buildAutosAux_fam : ∀ (m i : Nat) (d : List (String × Nat)),
    buildAutomationsAux i (List.replicate m famPad ++ [famDup]) d
      = pyDictInsert d "automation.x_2" (i + m) := by
  intro m
  induction m with
  | zero =>
    intro i d
    rw [List.replicate_zero, List.nil_append]
    rw [show buildAutomationsAux i [famDup] d
        = (if isAutomation famDup then pyDictInsert d famDup.entity_id i else d) from rfl]
    rw [if_pos (show isAutomation famDup = true from by decide), Nat.add_zero]
    rfl
  | succ m ih =>
    intro i d
    rw [List.replicate_succ, List.cons_append]
    rw [show buildAutomationsAux i (famPad :: (List.replicate m famPad ++ [famDup])) d
        = buildAutomationsAux (i + 1) (List.replicate m famPad ++ [famDup])
            (if isAutomation famPad then pyDictInsert d famPad.entity_id i else d) from rfl]
    rw [if_neg (show ¬isAutomation famPad = true from by decide)]
    rw [ih (i + 1) d]
    rw [show i + 1 + m = i + (m + 1) from by omega]

theorem fam_autos (m : Nat) :
    buildAutomations (famInput m) = [("automation.x", 0), ("automation.x_2", m + 1)] := by
  rw [buildAutomations, famInput]
  rw [show buildAutomationsAux 0 (famBase :: (List.replicate m famPad ++ [famDup])) []
      = buildAutomationsAux 1 (List.replicate m famPad ++ [famDup])
          (if isAutomation famBase then pyDictInsert [] famBase.entity_id 0 else []) from rfl]
  rw [if_pos (show isAutomation famBase = true from by decide)]
  rw [buildAutosAux_fam m 1 _]
  rw [show (1 : Nat) + m = m + 1 from by omega]
  rfl

theorem fam_scan (m : Nat) :
    pyListRemoveScan ((famInput m).set 0 { famBase with unique_id := famDup.unique_id })
      (List.range (m + 2)) (m + 1) = m + 2 := by
  have hlast : ((famInput m).set 0 { famBase with unique_id := famDup.unique_id })[m + 1]?
      = some famDup := by
    rw [List.getElem?_set_ne (by omega : (0 : Nat) ≠ m + 1), famInput_getElem_last]
  rw [List.range_succ]
  rw [pyListRemoveScan_concat _ _ _ ?hpre]
  · rw [List.length_range]
  case hpre =>
    intro i hi
    have hi' := List.mem_range.mp hi
    rw [hlast]
    cases Nat.eq_zero_or_pos i with
    | inl h0 =>
      subst h0
      rw [List.getElem?_set_self (by rw [famInput_length]; omega)]
      exact (by decide :
        some { famBase with unique_id := famDup.unique_id } ≠ some famDup)
    | inr hpos =>
      rw [List.getElem?_set_ne (by omega : (0 : Nat) ≠ i),
        famInput_getElem_mid m i hpos (by omega)]
      exact (by decide : some famPad ≠ some famDup)

theorem fixMaxScan_fam (m : Nat) : fixMaxScan (famInput m) = m + 2 := by
  rw [fixMaxScan, fam_autos, famInput_length]
  rw [show ([("automation.x", 0), ("automation.x_2", m + 1)] : List (String × Nat))
      = ("automation.x", 0) :: [("automation.x_2", m + 1)] from rfl]
  rw [List.foldl_cons]
  have step1 : fixCostStep [("automation.x", 0), ("automation.x_2", m + 1)]
      ((famInput m, List.range (m + 2)), 0) ("automation.x", 0)
      = ((famInput m, List.range (m + 2)), 0) := by
    have hend : pyEndsWith "automation.x" "_2" = false := by decide
    simp [fixCostStep, fixStep, hend]
  rw [step1]
  rw [show ([("automation.x_2", m + 1)] : List (String × Nat))
      = ("automation.x_2", m + 1) :: [] from rfl]
  rw [List.foldl_cons, List.foldl_nil]
  have hend : pyEndsWith "automation.x_2" "_2" = true := by decide
  have hlk : List.lookup (pyDropLast2 "automation.x_2")
      [("automation.x", 0), ("automation.x_2", m + 1)] = some 0 := rfl
  have h0 : (famInput m)[0]? = some famBase := by
    rw [famInput]
    exact List.getElem?_cons_zero
  have hlastf : (famInput m)[m + 1]? = some famDup := famInput_getElem_last m
  simp only [fixCostStep, hend, hlk, h0, hlastf, if_true]
  rw [Nat.zero_max]
  exact fam_scan m

/-- The reading of claim C4 is false: no constant bounds the removal scan a single
iteration of the duplicate-fix loop performs, because `entities.remove` walks the
entity list; on `famInput m` the single removal scans `m + 2` cells. -/
theorem fix_removal_scan_unbounded_cex : ¬FixRemovalScanBounded := by
  rintro ⟨K, hK⟩
  have h := hK (famInput K)
  rw [fixMaxScan_fam] at h
  omega

theorem buildAutomationsAux_length :
    ∀ (l : List Entity) (i : Nat) (d : List (String × Nat)),
      (buildAutomationsAux i l d).length ≤ d.length + l.length := by
  intro l
  induction l with
  | nil =>
    intro i d
    simp [buildAutomationsAux]
  | cons e0 rest ih =>
    intro i d
    rw [show buildAutomationsAux i (e0 :: rest) d
        = buildAutomationsAux (i + 1) rest
            (if isAutomation e0 then pyDictInsert d e0.entity_id i else d) from rfl]
    have h := ih (i + 1) (if isAutomation e0 then pyDictInsert d e0.entity_id i else d)
    have h2 : (if isAutomation e0 then pyDictInsert d e0.entity_id i else d).length
        ≤ d.length + 1 := by
      by_cases ha : isAutomation e0
      · rw [if_pos ha]
        exact pyDictInsert_length d _ i
      · rw [if_neg ha]
        omega
    simp only [List.length_cons]
    omega

theorem fixCostStep_snd_cases (autos : List (String × Nat))
    (s : (List Entity × List Nat) × Nat) (t : String × Nat) :
    (fixCostStep autos s t).2 = s.2 ∨
    ∃ store', (fixCostStep autos s t).2 = max s.2 (pyListRemoveScan store' s.1.2 t.2) := by
  rw [show (fixCostStep autos s t).2
      = (if pyEndsWith t.1 "_2" then
          match autos.lookup (pyDropLast2 t.1) with
          | some k =>
            match s.1.1[k]?, s.1.1[t.2]? with
            | some oldEntry, some entry =>
              max s.2 (pyListRemoveScan
                (s.1.1.set k { oldEntry with unique_id := entry.unique_id }) s.1.2 t.2)
            | _, _ => s.2
          | none => s.2
        else s.2) from rfl]
  split
  next =>
    split
    next k _ =>
      split
      next oldE entry _ _ =>
        exact Or.inr ⟨s.1.1.set k { oldE with unique_id := entry.unique_id }, rfl⟩
      next => exact Or.inl rfl
    next => exact Or.inl rfl
  next => exact Or.inl rfl

theorem fixCostFold_bound (autos : List (String × Nat)) (n : Nat) :
    ∀ (L : List (String × Nat)) (s : (List Entity × List Nat) × Nat),
      s.1.2.length ≤ n → s.2 ≤ n →
      (L.foldl (fixCostStep autos) s).2 ≤ n ∧
        (L.foldl (fixCostStep autos) s).1.2.length ≤ n := by
  intro L
  induction L with
  | nil => exact fun s h1 h2 => ⟨h2, h1⟩
  | cons t R ih =>
    intro s h1 h2
    rw [List.foldl_cons]
    refine ih _ ?_ ?_
    · show (fixStep autos s.1 t).2.length ≤ n
      rcases fixStep_cases autos s.1 t with h | ⟨k, oldE, entry, _, _, _, _, h⟩
      · rw [h]
        exact h1
      · rw [h]
        exact le_trans (pyListRemove_length_le _ _ _) h1
    · rcases fixCostStep_snd_cases autos s t with h | ⟨store', h⟩
      · rw [h]
        exact h2
      · rw [h]
        exact Nat.max_le.mpr ⟨h2, le_trans (pyListRemoveScan_le _ _ _) h1⟩

/-- Claim C4 (amended): the duplicate-fix operation is single-pass over the
`automations` dictionary — the dictionary holds at most one item per registry
record — and its per-iteration dictionary work is constant-time lookups and
updates, but the removal of a `_2` duplicate is a linear scan of the entity list
(`list.remove`), so the non-dictionary work of one iteration is bounded only by the
registry length, not by a constant. -/
theorem fix_registry_single_pass_linear_scan (inp : List Entity) :
    (buildAutomations inp).length ≤ inp.length ∧ fixMaxScan inp ≤ inp.length := by
  constructor
  · have h := buildAutomationsAux_length inp 0 []
    simpa [buildAutomations] using h
  · have h := fixCostFold_bound (buildAutomations inp) inp.length (buildAutomations inp)
      ((inp, List.range inp.length), 0) (by rw [List.length_range]) (Nat.zero_le _)
    exact h.1

/-! ## The generate operation (claim C8) -/

theorem genFold_lookup_some :
    ∀ (l : List Entity) (m : List (String × String)) (u s : String),
      ((l.foldl (fun m e =>
          if pyIsDigit e.unique_id then pyDictInsert m e.unique_id (suggestedId e) else m)
        m).lookup u = some s) →
      m.lookup u = some s ∨
        ∃ e ∈ l, pyIsDigit e.unique_id = true ∧ e.unique_id = u ∧ s = suggestedId e := by
  intro l
  induction l with
  | nil => exact fun m u s h => Or.inl h
  | cons e rest ih =>
    intro m u s h
    rw [List.foldl_cons] at h
    rcases ih _ u s h with h' | ⟨e', he', hd, hu, hs⟩
    · by_cases hdig : pyIsDigit e.unique_id = true
      · rw [if_pos hdig, pyDictInsert_lookup] at h'
        by_cases hu : u = e.unique_id
        · rw [if_pos hu] at h'
          injection h' with h'
          exact Or.inr ⟨e, List.mem_cons_self _ _, hdig, hu.symm, h'.symm⟩
        · rw [if_neg hu] at h'
          exact Or.inl h'
      · rw [if_neg hdig] at h'
        exact Or.inl h'
    · exact Or.inr ⟨e', List.mem_cons_of_mem _ he', hd, hu, hs⟩

theorem genFold_lookup_isSome :
    ∀ (l : List Entity) (m : List (String × String)) (u : String),
      (m.lookup u).isSome = true →
      ((l.foldl (fun m e =>
          if pyIsDigit e.unique_id then pyDictInsert m e.unique_id (suggestedId e) else m)
        m).lookup u).isSome = true := by
  intro l
  induction l with
  | nil => exact fun m u h => h
  | cons e rest ih =>
    intro m u h
    rw [List.foldl_cons]
    refine ih _ u ?_
    by_cases hdig : pyIsDigit e.unique_id = true
    · rw [if_pos hdig, pyDictInsert_lookup]
      by_cases hu : u = e.unique_id
      · rw [if_pos hu]
        rfl
      · rw [if_neg hu]
        exact h
    · rw [if_neg hdig]
      exact h

theorem genFold_mem_isSome :
    ∀ (l : List Entity) (m : List (String × String)) (e : Entity), e ∈ l →
      pyIsDigit e.unique_id = true →
      ((l.foldl (fun m e =>
          if pyIsDigit e.unique_id then pyDictInsert m e.unique_id (suggestedId e) else m)
        m).lookup e.unique_id).isSome = true := by
  intro l
  induction l with
  | nil =>
    intro m e he
    cases he
  | cons x rest ih =>
    intro m e he hdig
    rw [List.foldl_cons]
    rcases List.mem_cons.mp he with h' | h'
    · subst h'
      refine genFold_lookup_isSome rest _ e.unique_id ?_
      rw [if_pos hdig, pyDictInsert_lookup, if_pos rfl]
      rfl
    · exact ih _ e h' hdig

/-- Claim C8 (amended): the generate operation proposes a migration exactly for the
automation records whose `unique_id` is all digits, and the suggested id for a key
is the entity id of such a record with every occurrence of the substring
`"automation."` removed (Python `str.replace`), which coincides with removing the
leading prefix whenever the substring occurs only there. -/
theorem generate_migrations_char (es : List Entity) :
    (∀ u s : String, (generateMigrations es).lookup u = some s →
      ∃ e ∈ es, isAutomation e = true ∧ pyIsDigit e.unique_id = true ∧
        e.unique_id = u ∧ s = suggestedId e) ∧
    (∀ e ∈ es, isAutomation e = true → pyIsDigit e.unique_id = true →
      ((generateMigrations es).lookup e.unique_id).isSome = true) := by
  constructor
  · intro u s h
    rw [generateMigrations] at h
    rcases genFold_lookup_some _ _ u s h with h' | ⟨e, he, hd, hu, hs⟩
    · exact absurd h' (by simp [List.lookup])
    · have hm := List.mem_filter.mp he
      exact ⟨e, hm.1, hm.2, hd, hu, hs⟩
  · intro e he hauto hdig
    rw [generateMigrations]
    exact genFold_mem_isSome _ _ e (List.mem_filter.mpr ⟨he, hauto⟩) hdig

/-- Witness for claim C8 on a one-automation registry with a numeric unique id. -/
theorem generate_migrations_char_witness :
    (∃ e ∈ [(⟨"automation.kitchen", "123", none, none, [], []⟩ : Entity)],
      isAutomation e = true ∧ pyIsDigit e.unique_id = true ∧
        e.unique_id = "123" ∧ "kitchen" = suggestedId e) ∧
    ((generateMigrations [(⟨"automation.kitchen", "123", none, none, [], []⟩ : Entity)]).lookup
      (Entity.unique_id ⟨"automation.kitchen", "123", none, none, [], []⟩)).isSome = true := by
  have h := generate_migrations_char [(⟨"automation.kitchen", "123", none, none, [], []⟩ : Entity)]
  exact ⟨h.1 "123" "kitchen" (by decide),
    h.2 ⟨"automation.kitchen", "123", none, none, [], []⟩ (by decide) (by decide) (by decide)⟩

/-- Counterexample to claim C8 as frozen: `str.replace` removes every occurrence of
`"automation."`, not only the leading prefix, so for an automation whose entity id
contains the substring twice the proposed id differs from the prefix-stripped id. -/
theorem generate_suggested_id_cex :
    (generateMigrations [cexGen]).lookup "123" = some "x" ∧
    specSuggestedId cexGen = "automation.x" ∧ ("x" : String) ≠ "automation.x" :=
  ⟨by decide, by decide, by decide⟩

/-! ## The clean operation (claim C10) -/

theorem lexLe_total : ∀ a b : List Char, lexLe a b = true ∨ lexLe b a = true := by
  intro a
  induction a with
  | nil => exact fun b => Or.inl rfl
  | cons x s ih =>
    intro b
    cases b with
    | nil => exact Or.inr rfl
    | cons y t =>
      by_cases h1 : x.toNat < y.toNat
      · left
        simp [lexLe, h1]
      · by_cases h2 : y.toNat < x.toNat
        · right
          simp [lexLe, h2]
        · rcases ih t with h | h
          · left
            simp [lexLe, h1, h2, h]
          · right
            simp [lexLe, h1, h2, h]

theorem lexLe_head_le {x y : Char} {s t : List Char}
    (h : lexLe (x :: s) (y :: t) = true) : x.toNat ≤ y.toNat := by
  by_cases h1 : x.toNat < y.toNat
  · omega
  · by_cases h2 : y.toNat < x.toNat
    · rw [show lexLe (x :: s) (y :: t) = false from by simp [lexLe, h1, h2]] at h
      exact absurd h (by simp)
    · omega

theorem lexLe_trans :
    ∀ a b c : List Char, lexLe a b = true → lexLe b c = true → lexLe a c = true := by
  intro a
  induction a with
  | nil => exact fun b c _ _ => rfl
  | cons x s ih =>
    intro b c h1 h2
    cases b with
    | nil => exact absurd h1 (by simp [lexLe])
    | cons y t =>
      cases c with
      | nil => exact absurd h2 (by simp [lexLe])
      | cons z u =>
        by_cases hxz : x.toNat < z.toNat
        · simp [lexLe, hxz]
        · by_cases hzx : z.toNat < x.toNat
          · have ha := lexLe_head_le h1
            have hb := lexLe_head_le h2
            exact absurd hzx (by omega)
          · have ha := lexLe_head_le h1
            have hb := lexLe_head_le h2
            have hxy : ¬x.toNat < y.toNat := by omega
            have hyx : ¬y.toNat < x.toNat := by omega
            have hyz : ¬y.toNat < z.toNat := by omega
            have hzy : ¬z.toNat < y.toNat := by omega
            have h1' : lexLe s t = true := by simpa [lexLe, hxy, hyx] using h1
            have h2' : lexLe t u = true := by simpa [lexLe, hyz, hzy] using h2
            simpa [lexLe, hxz, hzx] using ih t u h1' h2'

/-- Claim C10: with a nonnegative keep value, the clean operation removes nothing
when at most `keep` backups exist, and otherwise removes exactly the files after the
first `keep` of the descending sorted order — so the retained files are the `keep`
greatest file names and every removed file compares at most equal to every retained
one. -/
theorem clean_keeps_most_recent (files : List String) (keep : Int) (hk : 0 ≤ keep) :
    ((files.length : Int) ≤ keep → clean files keep = ([], 0)) ∧
    (keep < (files.length : Int) →
      (clean files keep).1 = (sortBackupsDesc files).drop keep.toNat ∧
      (clean files keep).2 = files.length - keep.toNat ∧
      (sortBackupsDesc files).take keep.toNat ++ (clean files keep).1 = sortBackupsDesc files ∧
      (sortBackupsDesc files).Perm files ∧
      ∀ a ∈ (sortBackupsDesc files).take keep.toNat, ∀ b ∈ (clean files keep).1,
        pyDescOrder a b) := by
  have hperm : (sortBackupsDesc files).Perm files := List.perm_insertionSort pyDescOrder files
  have hlen : (sortBackupsDesc files).length = files.length := hperm.length_eq
  have hbody : clean files keep
      = if ((sortBackupsDesc files).length : Int) ≤ keep then ([], 0)
        else (pySliceFrom (sortBackupsDesc files) keep,
          (pySliceFrom (sortBackupsDesc files) keep).length) := rfl
  constructor
  · intro hle
    rw [hbody, if_pos (by rw [hlen]; exact hle)]
  · intro hlt
    have hcond : ¬((sortBackupsDesc files).length : Int) ≤ keep := by
      rw [hlen]
      omega
    rw [hbody, if_neg hcond]
    have hslice : pySliceFrom (sortBackupsDesc files) keep
        = (sortBackupsDesc files).drop keep.toNat := by
      rw [pySliceFrom, if_pos hk]
    refine ⟨hslice, ?_, ?_, hperm, ?_⟩
    · show (pySliceFrom (sortBackupsDesc files) keep).length = _
      rw [hslice, List.length_drop, hlen]
    · show _ ++ pySliceFrom (sortBackupsDesc files) keep = _
      rw [hslice]
      exact List.take_append_drop _ _
    · intro a ha b hb
      haveI : IsTotal String pyDescOrder :=
        ⟨fun a b => (lexLe_total a.data b.data).symm⟩
      haveI : IsTrans String pyDescOrder :=
        ⟨fun a b c hab hbc => lexLe_trans c.data b.data a.data hbc hab⟩
      have hsorted : List.Pairwise pyDescOrder (sortBackupsDesc files) :=
        List.sorted_insertionSort pyDescOrder files
      rw [← List.take_append_drop keep.toNat (sortBackupsDesc files)] at hsorted
      rw [hslice] at hb
      exact (List.pairwise_append.mp hsorted).2.2 a ha b hb

/-- Witness for claim C10 on three concrete file names with keep 2. -/
theorem clean_keeps_most_recent_witness :
    (clean ["b", "a", "c"] 2).1 = (sortBackupsDesc ["b", "a", "c"]).drop (Int.toNat 2) ∧
    (clean ["b", "a", "c"] 2).2 = (["b", "a", "c"] : List String).length - Int.toNat 2 := by
  have h := (clean_keeps_most_recent ["b", "a", "c"] 2 (by decide)).2 (by decide)
  exact ⟨h.1, h.2.1⟩

/-! ## String suffix lemmas and further helpers -/

theorem findSome?_singleton {α β : Type} (f : α → Option β) (x : α) :
    List.findSome? f [x] = f x := by
  rw [List.findSome?_cons]
  cases f x <;> rfl

theorem string_data_eq {s t : String} (h : s.data = t.data) : s = t :=
  congrArg String.mk h

theorem endsWith2_decomp {s : String} (h : pyEndsWith s "_2" = true) :
    s.data = (pyDropLast2 s).data ++ ['_', '2'] := by
  have h' : listStarts s.data.reverse ['2', '_'] = true := h
  cases hs : s.data.reverse with
  | nil =>
    rw [hs] at h'
    exact absurd h' (by simp [listStarts])
  | cons c1 r1 =>
    cases r1 with
    | nil =>
      rw [hs] at h'
      simp [listStarts] at h'
    | cons c2 r2 =>
      rw [hs] at h'
      simp only [listStarts, Bool.and_eq_true, beq_iff_eq] at h'
      obtain ⟨hc1, hc2, -⟩ := h'
      have hdata : s.data = r2.reverse ++ [c2, c1] := by
        have h2 := congrArg List.reverse hs
        rw [List.reverse_reverse] at h2
        rw [h2]
        simp
      have hlen : s.data.length = r2.length + 2 := by
        rw [hdata]
        simp
      have htake : (pyDropLast2 s).data = r2.reverse := by
        show s.data.take (s.data.length - 2) = r2.reverse
        rw [hlen, hdata, Nat.add_sub_cancel]
        rw [show r2.length = r2.reverse.length from (List.length_reverse r2).symm]
        exact List.take_left _ _
      rw [htake, hdata, hc1, hc2]

theorem pyDropLast2_ne {s : String} (h : pyEndsWith s "_2" = true) : pyDropLast2 s ≠ s := by
  intro he
  have h2 := endsWith2_decomp h
  rw [he] at h2
  have h3 := congrArg List.length h2
  rw [List.length_append] at h3
  simp at h3

theorem endsWith2_inj {s t : String} (hs : pyEndsWith s "_2" = true)
    (ht : pyEndsWith t "_2" = true) (h : pyDropLast2 s = pyDropLast2 t) : s = t := by
  apply string_data_eq
  rw [endsWith2_decomp hs, endsWith2_decomp ht, h]

theorem expectedSlot_entity_id {inp : List Entity} {autos P : List (String × Nat)} {k : Nat}
    {e' : Entity} (h : expectedSlot inp autos P k = some e') :
    ∃ e0, inp[k]? = some e0 ∧ e'.entity_id = e0.entity_id := by
  rw [expectedSlot] at h
  cases hk : inp[k]? with
  | none =>
    rw [hk] at h
    exact Option.noConfusion h
  | some e0 =>
    rw [hk] at h
    refine ⟨e0, rfl, ?_⟩
    cases hw : writeSource autos P k with
    | none =>
      rw [hw] at h
      injection h with h
      rw [← h]
    | some j =>
      rw [hw] at h
      injection h with h
      rw [← h]

theorem writeSource_none_of_ends2 {inp : List Entity} (H2 : NoChained2 inp)
    (L : List (String × Nat)) (hL : ∀ t ∈ L, t ∈ buildAutomations inp) {j : Nat} {e : Entity}
    (hj : inp[j]? = some e) (hend : pyEndsWith e.entity_id "_2" = true) :
    writeSource (buildAutomations inp) L j = none := by
  cases hw : writeSource (buildAutomations inp) L j with
  | none => rfl
  | some j' =>
    exfalso
    obtain ⟨t', ht', hft'⟩ := List.exists_of_findSome?_eq_some hw
    by_cases hc : pyEndsWith t'.1 "_2" = true ∧
        (buildAutomations inp).lookup (pyDropLast2 t'.1) = some j
    · obtain ⟨ex, hxE, hxeid, -⟩ := buildAutomations_mem (lookup_mem hc.2)
      have hex : ex = e := by
        have h2 := hxE.symm.trans hj
        injection h2
      obtain ⟨e', h'E, h'eid, h'auto⟩ := buildAutomations_mem
        (show (t'.1, t'.2) ∈ buildAutomations inp from hL t' ht')
      have hnc := H2 e' (List.getElem?_mem h'E) h'auto (by rw [h'eid]; exact hc.1)
      rw [h'eid, ← hxeid, hex, hend] at hnc
      simp at hnc
    · rw [if_neg hc] at hft'
      exact Option.noConfusion hft'

/-! ## The per-item invariant of the duplicate-fix loop (claim C1) -/

theorem contains_append_singleton (l : List Nat) (a x : Nat) :
    (l ++ [a]).contains x = (l.contains x || (x == a)) := by
  induction l with
  | nil =>
    simp only [List.nil_append, List.contains_eq_any_beq, List.any_cons, List.any_nil,
      Bool.or_false, Bool.false_or]
  | cons y ys ih =>
    simp only [List.contains_eq_any_beq] at ih
    simp only [List.cons_append, List.contains_eq_any_beq, List.any_cons, ih, Bool.or_assoc]

theorem fixStep_expected (inp : List Entity) (H1 : AutoIdsDistinct inp) (H2 : NoChained2 inp)
    (P : List (String × Nat)) (t : String × Nat) (R : List (String × Nat))
    (hPR : buildAutomations inp = P ++ t :: R)
    (store : List Entity) (es : List Nat)
    (hstore : ∀ k : Nat, store[k]? = expectedSlot inp (buildAutomations inp) P k)
    (hes : es = expectedEs inp (buildAutomations inp) P) :
    (∀ k : Nat, (fixStep (buildAutomations inp) (store, es) t).1[k]?
        = expectedSlot inp (buildAutomations inp) (P ++ [t]) k) ∧
    (fixStep (buildAutomations inp) (store, es) t).2
        = expectedEs inp (buildAutomations inp) (P ++ [t]) := by
  have hPmem : ∀ t' ∈ P, t' ∈ buildAutomations inp := fun t' ht' => by
    rw [hPR]
    exact List.mem_append.mpr (Or.inl ht')
  have htA : t ∈ buildAutomations inp := by
    rw [hPR]
    exact List.mem_append.mpr (Or.inr (List.mem_cons_self _ _))
  by_cases h2 : pyEndsWith t.1 "_2" = true
  case neg =>
    have hid : fixStep (buildAutomations inp) (store, es) t = (store, es) := by
      unfold fixStep
      rw [if_neg h2]
    refine ⟨fun k => ?_, ?_⟩
    · rw [hid, hstore k, expectedSlot, expectedSlot]
      have hw : writeSource (buildAutomations inp) (P ++ [t]) k
          = writeSource (buildAutomations inp) P k := by
        rw [writeSource, writeSource, List.findSome?_append, findSome?_singleton,
          if_neg fun hc => h2 hc.1]
        cases List.findSome? _ P <;> rfl
      rw [hw]
    · rw [hid, hes, expectedEs, expectedEs]
      have hr : removedSet (buildAutomations inp) (P ++ [t])
          = removedSet (buildAutomations inp) P := by
        have hft : (if pyEndsWith t.1 "_2" = true ∧
            ((buildAutomations inp).lookup (pyDropLast2 t.1)).isSome
          then some t.2 else (none : Option Nat)) = none := if_neg fun hc => h2 hc.1
        simp only [removedSet, List.filterMap_append, List.filterMap_cons, List.filterMap_nil,
          hft, List.append_nil]
      rw [hr]
  case pos =>
    cases hlk : (buildAutomations inp).lookup (pyDropLast2 t.1) with
    | none =>
      have hid : fixStep (buildAutomations inp) (store, es) t = (store, es) := by
        unfold fixStep
        rw [if_pos h2, hlk]
      refine ⟨fun k => ?_, ?_⟩
      · rw [hid, hstore k, expectedSlot, expectedSlot]
        have hw : writeSource (buildAutomations inp) (P ++ [t]) k
            = writeSource (buildAutomations inp) P k := by
          rw [writeSource, writeSource, List.findSome?_append, findSome?_singleton,
            if_neg fun hc => Option.noConfusion (hlk.symm.trans hc.2)]
          cases List.findSome? _ P <;> rfl
        rw [hw]
      · rw [hid, hes, expectedEs, expectedEs]
        have hr : removedSet (buildAutomations inp) (P ++ [t])
            = removedSet (buildAutomations inp) P := by
          have hft : (if pyEndsWith t.1 "_2" = true ∧
              ((buildAutomations inp).lookup (pyDropLast2 t.1)).isSome
            then some t.2 else (none : Option Nat)) = none := by
            rw [if_neg]
            intro hc
            rw [hlk] at hc
            exact absurd hc.2 (by simp)
          simp only [removedSet, List.filterMap_append, List.filterMap_cons, List.filterMap_nil,
            hft, List.append_nil]
        rw [hr]
    | some k0 =>
      obtain ⟨ej, hjE, hjeid, hjauto⟩ := buildAutomations_mem
        (show (t.1, t.2) ∈ buildAutomations inp from htA)
      obtain ⟨ek, hkE, hkeid, hkauto⟩ := buildAutomations_mem (lookup_mem hlk)
      have hwj : writeSource (buildAutomations inp) P t.2 = none := by
        refine writeSource_none_of_ends2 H2 P hPmem hjE ?_
        rw [hjeid]
        exact h2
      have hsj : store[t.2]? = some ej := by
        rw [hstore t.2, expectedSlot, hwj, hjE]
        rfl
      have hwk : writeSource (buildAutomations inp) P k0 = none := by
        cases hw : writeSource (buildAutomations inp) P k0 with
        | none => rfl
        | some j' =>
          exfalso
          obtain ⟨t', ht', hft'⟩ := List.exists_of_findSome?_eq_some hw
          by_cases hc : pyEndsWith t'.1 "_2" = true ∧
              (buildAutomations inp).lookup (pyDropLast2 t'.1) = some k0
          · obtain ⟨ex, hxE, hxeid, -⟩ := buildAutomations_mem (lookup_mem hc.2)
            have hexk : ex = ek := by
              have h3 := hxE.symm.trans hkE
              injection h3
            have hdd : pyDropLast2 t'.1 = pyDropLast2 t.1 := by
              rw [← hxeid, hexk, hkeid]
            have ht1 : t'.1 = t.1 := endsWith2_inj hc.1 h2 hdd
            have hnodup := buildAutomations_keys_nodup inp
            rw [hPR, List.map_append, List.map_cons, List.nodup_append] at hnodup
            exact hnodup.2.2 (List.mem_map.mpr ⟨t', ht', rfl⟩)
              (by rw [ht1]; exact List.mem_cons_self _ _)
          · rw [if_neg hc] at hft'
            exact Option.noConfusion hft'
      have hsk : store[k0]? = some ek := by
        rw [hstore k0, expectedSlot, hwk, hkE]
        rfl
      have hk0j : k0 ≠ t.2 := by
        intro he
        rw [he] at hkE
        have h3 : ek = ej := by
          have h4 := hkE.symm.trans hjE
          injection h4
        apply pyDropLast2_ne h2
        rw [← hkeid, h3, hjeid]
      have hstepEq : fixStep (buildAutomations inp) (store, es) t
          = (store.set k0 { ek with unique_id := ej.unique_id },
             pyListRemove (store.set k0 { ek with unique_id := ej.unique_id }) es t.2) := by
        simp [fixStep, h2, hlk, hsk, hsj]
      rw [hstepEq]
      constructor
      · intro k
        by_cases hkk : k = k0
        · subst hkk
          have hlt : k < store.length := (List.getElem?_eq_some.mp hsk).1
          rw [List.getElem?_set_self hlt]
          have hw : writeSource (buildAutomations inp) (P ++ [t]) k = some t.2 := by
            rw [writeSource, List.findSome?_append, findSome?_singleton, if_pos ⟨h2, hlk⟩]
            have h5 := hwk
            rw [writeSource] at h5
            rw [h5]
            rfl
          have hu : uidAt inp t.2 = ej.unique_id := by
            rw [uidAt, hjE]
            rfl
          rw [expectedSlot, hw, hkE]
          show some { ek with unique_id := ej.unique_id }
              = some { ek with unique_id := uidAt inp t.2 }
          rw [hu]
        · rw [List.getElem?_set_ne fun he => hkk he.symm]
          rw [hstore k, expectedSlot, expectedSlot]
          have hw : writeSource (buildAutomations inp) (P ++ [t]) k
              = writeSource (buildAutomations inp) P k := by
            rw [writeSource, writeSource, List.findSome?_append, findSome?_singleton]
            rw [if_neg fun hc => hkk (by
              have h6 := hlk.symm.trans hc.2
              injection h6 with h6
              exact h6.symm)]
            cases List.findSome? _ P <;> rfl
          rw [hw]
      · rw [hes]
        have hsj' : (store.set k0 { ek with unique_id := ej.unique_id })[t.2]? = some ej := by
          rw [List.getElem?_set_ne hk0j, hsj]
        have hinj : ∀ i ∈ expectedEs inp (buildAutomations inp) P,
            (store.set k0 { ek with unique_id := ej.unique_id })[i]?
              = (store.set k0 { ek with unique_id := ej.unique_id })[t.2]? ↔ i = t.2 := by
          intro i hi
          constructor
          · intro heq
            by_contra hne
            rw [hsj'] at heq
            have hi' : i < inp.length := by
              rw [expectedEs, List.mem_filter] at hi
              exact List.mem_range.mp hi.1
            obtain ⟨ei, hei, e0, he0, heid0⟩ :
                ∃ ei, (store.set k0 { ek with unique_id := ej.unique_id })[i]? = some ei ∧
                  ∃ e0, inp[i]? = some e0 ∧ ei.entity_id = e0.entity_id := by
              by_cases hik : i = k0
              · subst hik
                exact ⟨{ ek with unique_id := ej.unique_id },
                  List.getElem?_set_self (List.getElem?_eq_some.mp hsk).1, ek, hkE, rfl⟩
              · rw [List.getElem?_set_ne fun he => hik he.symm]
                rw [hstore i]
                cases hsl : expectedSlot inp (buildAutomations inp) P i with
                | none =>
                  exfalso
                  rw [expectedSlot] at hsl
                  cases hi2 : inp[i]? with
                  | none =>
                    have h7 := List.getElem?_eq_getElem hi'
                    rw [hi2] at h7
                    exact Option.noConfusion h7
                  | some e0 =>
                    rw [hi2] at hsl
                    exact Option.noConfusion hsl
                | some ei =>
                  exact ⟨ei, rfl, expectedSlot_entity_id hsl⟩
            rw [hei] at heq
            injection heq with heq
            have heq2 : e0.entity_id = ej.entity_id := by
              rw [← heid0, heq]
            obtain ⟨hjlt, hjget⟩ := List.getElem?_eq_some.mp hjE
            obtain ⟨hilt, higet⟩ := List.getElem?_eq_some.mp he0
            have hia : isAutomation inp[i] = true := by
              rw [higet]
              show pyStartsWith e0.entity_id "automation." = true
              rw [heq2]
              exact hjauto
            have hja : isAutomation inp[t.2] = true := by
              rw [hjget]
              exact hjauto
            have h8 := H1 i hilt t.2 hjlt hne hia hja
            rw [higet, hjget] at h8
            exact h8 heq2
          · intro he
            rw [he]
        rw [pyListRemove_eq_erase _ hinj]
        have hnodup : (expectedEs inp (buildAutomations inp) P).Nodup :=
          (List.nodup_range _).filter _
        rw [List.Nodup.erase_eq_filter hnodup]
        rw [expectedEs, expectedEs, List.filter_filter]
        have hr : removedSet (buildAutomations inp) (P ++ [t])
            = removedSet (buildAutomations inp) P ++ [t.2] := by
          have hft : (if pyEndsWith t.1 "_2" = true ∧
              ((buildAutomations inp).lookup (pyDropLast2 t.1)).isSome
            then some t.2 else (none : Option Nat)) = some t.2 :=
            if_pos ⟨h2, by rw [hlk]; rfl⟩
          simp only [removedSet, List.filterMap_append, List.filterMap_cons, List.filterMap_nil,
            hft]
        rw [hr]
        apply List.filter_congr
        intro x hx
        rw [contains_append_singleton]
        rw [show (x != t.2) = !(x == t.2) from rfl]
        cases hc1 : (removedSet (buildAutomations inp) P).contains x <;>
          cases hc2 : x == t.2 <;> rfl

theorem fixFold_characterization (inp : List Entity) (H1 : AutoIdsDistinct inp)
    (H2 : NoChained2 inp) :
    ∀ (R P : List (String × Nat)), buildAutomations inp = P ++ R →
      ∀ (store : List Entity) (es : List Nat),
        (∀ k : Nat, store[k]? = expectedSlot inp (buildAutomations inp) P k) →
        es = expectedEs inp (buildAutomations inp) P →
        (∀ k : Nat, (R.foldl (fixStep (buildAutomations inp)) (store, es)).1[k]?
            = expectedSlot inp (buildAutomations inp) (P ++ R) k) ∧
        (R.foldl (fixStep (buildAutomations inp)) (store, es)).2
            = expectedEs inp (buildAutomations inp) (P ++ R) := by
  intro R
  induction R with
  | nil =>
    intro P hPR store es hstore hes
    rw [List.append_nil]
    exact ⟨hstore, hes⟩
  | cons t R ih =>
    intro P hPR store es hstore hes
    rw [List.foldl_cons]
    have hstep := fixStep_expected inp H1 H2 P t R hPR store es hstore hes
    have h3 := ih (P ++ [t]) (by rw [hPR, List.append_assoc]; rfl)
      (fixStep (buildAutomations inp) (store, es) t).1
      (fixStep (buildAutomations inp) (store, es) t).2 hstep.1 hstep.2
    rw [show ((fixStep (buildAutomations inp) (store, es) t).1,
        (fixStep (buildAutomations inp) (store, es) t).2)
        = fixStep (buildAutomations inp) (store, es) t from rfl] at h3
    rw [show (P ++ [t]) ++ R = P ++ t :: R from by rw [List.append_assoc]; rfl] at h3
    exact h3

theorem fixRun_char (inp : List Entity) (H1 : AutoIdsDistinct inp) (H2 : NoChained2 inp) :
    (∀ k : Nat, (fixRun inp).1[k]?
        = expectedSlot inp (buildAutomations inp) (buildAutomations inp) k) ∧
    (fixRun inp).2 = expectedEs inp (buildAutomations inp) (buildAutomations inp) := by
  have h := fixFold_characterization inp H1 H2 (buildAutomations inp) [] rfl
    inp (List.range inp.length) ?hst ?hes
  · exact h
  case hst =>
    intro k
    rw [expectedSlot, show writeSource (buildAutomations inp) [] k = none from rfl]
    cases inp[k]? <;> rfl
  case hes =>
    rw [expectedEs, show removedSet (buildAutomations inp) [] = [] from rfl]
    exact (List.filter_eq_self.mpr fun a _ => rfl).symm

theorem mem_expectedEs {inp : List Entity} {autos L : List (String × Nat)} {i : Nat} :
    i ∈ expectedEs inp autos L ↔ i < inp.length ∧ i ∉ removedSet autos L := by
  rw [expectedEs, List.mem_filter, List.mem_range]
  constructor
  · rintro ⟨h1, h2⟩
    refine ⟨h1, fun hm => ?_⟩
    have hc : (removedSet autos L).contains i = true := List.elem_iff.mpr hm
    rw [hc] at h2
    simp at h2
  · rintro ⟨h1, h2⟩
    refine ⟨h1, ?_⟩
    cases hc : (removedSet autos L).contains i with
    | false => rfl
    | true => exact absurd (List.elem_iff.mp hc) h2

theorem mem_removedSet {autos L : List (String × Nat)} {i : Nat} :
    i ∈ removedSet autos L ↔ ∃ t ∈ L, pyEndsWith t.1 "_2" = true ∧
      (autos.lookup (pyDropLast2 t.1)).isSome = true ∧ t.2 = i := by
  rw [removedSet, List.mem_filterMap]
  constructor
  · rintro ⟨t, ht, hft⟩
    by_cases hc : pyEndsWith t.1 "_2" = true ∧ (autos.lookup (pyDropLast2 t.1)).isSome
    · rw [if_pos hc] at hft
      injection hft with hft
      exact ⟨t, ht, hc.1, hc.2, hft⟩
    · rw [if_neg hc] at hft
      exact absurd hft (by simp)
  · rintro ⟨t, ht, he, hs, hv⟩
    exact ⟨t, ht, by rw [if_pos ⟨he, hs⟩, hv]⟩

/-- Claim C1 (amended): for a registry whose automation entity ids are pairwise
distinct and contain no chained `"_2_2"` suffix, the duplicate-fix operation treats
every `_2`-suffixed automation entry as follows: when an automation entry with the
base entity id exists, the output contains the base entry with its `unique_id`
replaced by that of the `_2` entry (all other fields intact) and contains no entry
with the `_2` entity id; when no base entry exists, the `_2` entry itself appears
unchanged in the output. -/
theorem fix_registry_duplicate_merge (inp : List Entity)
    (H1 : AutoIdsDistinct inp) (H2 : NoChained2 inp) :
    ∀ (j : Nat) (e : Entity), inp[j]? = some e → isAutomation e = true →
      pyEndsWith e.entity_id "_2" = true →
      ((∀ (k : Nat) (b : Entity), inp[k]? = some b → isAutomation b = true →
          b.entity_id ≠ pyDropLast2 e.entity_id) →
        e ∈ fixEntities inp) ∧
      (∀ (k : Nat) (b : Entity), inp[k]? = some b → isAutomation b = true →
        b.entity_id = pyDropLast2 e.entity_id →
        (∀ e' ∈ fixEntities inp, e'.entity_id ≠ e.entity_id) ∧
        { b with unique_id := e.unique_id } ∈ fixEntities inp) := by
  intro j e hj hauto hend
  obtain ⟨hchar1, hchar2⟩ := fixRun_char inp H1 H2
  have hlkj : (buildAutomations inp).lookup e.entity_id = some j :=
    buildAutomations_lookup_found H1 hj hauto
  have htj : (e.entity_id, j) ∈ buildAutomations inp := lookup_mem hlkj
  have hAmem : ∀ t ∈ buildAutomations inp, t ∈ buildAutomations inp := fun t ht => ht
  constructor
  · intro hnone
    have hlkb : (buildAutomations inp).lookup (pyDropLast2 e.entity_id) = none :=
      buildAutomations_lookup_none hnone
    have hjnr : j ∉ removedSet (buildAutomations inp) (buildAutomations inp) := by
      intro hm
      obtain ⟨t, ht, hte, hts, htv⟩ := mem_removedSet.mp hm
      obtain ⟨et, htE, hteid, -⟩ := buildAutomations_mem
        (show (t.1, t.2) ∈ buildAutomations inp from ht)
      rw [htv] at htE
      have hte2 : et = e := by
        have h4 := htE.symm.trans hj
        injection h4
      rw [show t.1 = e.entity_id from by rw [← hteid, hte2]] at hts
      rw [hlkb] at hts
      simp at hts
    have hjes : j ∈ (fixRun inp).2 := by
      rw [hchar2]
      exact mem_expectedEs.mpr ⟨(List.getElem?_eq_some.mp hj).1, hjnr⟩
    have hws : writeSource (buildAutomations inp) (buildAutomations inp) j = none :=
      writeSource_none_of_ends2 H2 _ hAmem hj hend
    have hslot : (fixRun inp).1[j]? = some e := by
      rw [hchar1 j, expectedSlot, hws, hj]
      rfl
    rw [fixEntities, List.mem_filterMap]
    exact ⟨j, hjes, hslot⟩
  · intro k b hk hbauto hbase
    have hlkb : (buildAutomations inp).lookup (pyDropLast2 e.entity_id) = some k := by
      rw [← hbase]
      exact buildAutomations_lookup_found H1 hk hbauto
    have hjr : j ∈ removedSet (buildAutomations inp) (buildAutomations inp) :=
      mem_removedSet.mpr ⟨(e.entity_id, j), htj, hend, by rw [hlkb]; rfl, rfl⟩
    have hjnes : j ∉ (fixRun inp).2 := by
      rw [hchar2]
      intro hm
      exact absurd hjr (mem_expectedEs.mp hm).2
    constructor
    · intro e' he' hee
      rw [fixEntities, List.mem_filterMap] at he'
      obtain ⟨i, hies, hislot⟩ := he'
      rw [hchar1 i] at hislot
      obtain ⟨e0, he0, heid0⟩ := expectedSlot_entity_id hislot
      have heq : e0.entity_id = e.entity_id := by
        rw [← heid0, hee]
      by_cases hij : i = j
      · rw [hij] at hies
        exact hjnes hies
      · obtain ⟨hilt, higet⟩ := List.getElem?_eq_some.mp he0
        obtain ⟨hjlt, hjget⟩ := List.getElem?_eq_some.mp hj
        have hia : isAutomation inp[i] = true := by
          rw [higet]
          show pyStartsWith e0.entity_id "automation." = true
          rw [heq]
          exact hauto
        have hja : isAutomation inp[j] = true := by
          rw [hjget]
          exact hauto
        have h8 := H1 i hilt j hjlt hij hia hja
        rw [higet, hjget] at h8
        exact h8 heq
    · have hws : writeSource (buildAutomations inp) (buildAutomations inp) k = some j := by
        refine findSome?_of_unique ⟨(e.entity_id, j), htj, ?_⟩ ?_
        · rw [if_pos ⟨hend, hlkb⟩]
        · intro t' ht' v hv
          by_cases hc : pyEndsWith t'.1 "_2" = true ∧
              (buildAutomations inp).lookup (pyDropLast2 t'.1) = some k
          · rw [if_pos hc] at hv
            injection hv with hv
            obtain ⟨ex, hxE, hxeid, -⟩ := buildAutomations_mem (lookup_mem hc.2)
            have hexb : ex = b := by
              have h4 := hxE.symm.trans hk
              injection h4
            have hdd : pyDropLast2 t'.1 = pyDropLast2 e.entity_id := by
              rw [← hxeid, hexb, hbase]
            have ht1 : t'.1 = e.entity_id := endsWith2_inj hc.1 hend hdd
            rw [← hv]
            have hmem2 : (e.entity_id, t'.2) ∈ buildAutomations inp := by
              rw [← ht1]
              exact ht'
            exact keys_nodup_value_unique (buildAutomations_keys_nodup inp) hmem2 htj
          · rw [if_neg hc] at hv
            exact Option.noConfusion hv
      have hknr : k ∉ removedSet (buildAutomations inp) (buildAutomations inp) := by
        intro hm
        obtain ⟨t, ht, hte, hts, htv⟩ := mem_removedSet.mp hm
        obtain ⟨et, htE, hteid, -⟩ := buildAutomations_mem
          (show (t.1, t.2) ∈ buildAutomations inp from ht)
        rw [htv] at htE
        have hteb : et = b := by
          have h4 := htE.symm.trans hk
          injection h4
        have hb2 : pyEndsWith (pyDropLast2 e.entity_id) "_2" = true := by
          rw [← hbase, ← hteb, hteid]
          exact hte
        have hne := H2 e (List.getElem?_mem hj) hauto hend
        rw [hb2] at hne
        exact Bool.noConfusion hne
      have hkes : k ∈ (fixRun inp).2 := by
        rw [hchar2]
        exact mem_expectedEs.mpr ⟨(List.getElem?_eq_some.mp hk).1, hknr⟩
      have hslot : (fixRun inp).1[k]? = some { b with unique_id := e.unique_id } := by
        have hu : uidAt inp j = e.unique_id := by
          rw [uidAt, hj]
          rfl
        rw [hchar1 k, expectedSlot, hws, hk, Option.map_some']
        show some { b with unique_id := uidAt inp j }
            = some { b with unique_id := e.unique_id }
        rw [hu]
      rw [fixEntities, List.mem_filterMap]
      exact ⟨k, hkes, hslot⟩

/-- Witness for claim C1: merging a single `_2` duplicate into its base on a
concrete two-record registry. -/
theorem fix_registry_duplicate_merge_witness :
    ((⟨"automation.x", "new", some "kitchen", none, [], []⟩ : Entity)
      ∈ fixEntities [⟨"automation.x", "100", some "kitchen", none, [], []⟩,
        ⟨"automation.x_2", "new", none, none, [], []⟩]) ∧
    ∀ e' ∈ fixEntities [⟨"automation.x", "100", some "kitchen", none, [], []⟩,
        ⟨"automation.x_2", "new", none, none, [], []⟩],
      e'.entity_id ≠ "automation.x_2" := by
  have h := fix_registry_duplicate_merge
    [⟨"automation.x", "100", some "kitchen", none, [], []⟩,
     ⟨"automation.x_2", "new", none, none, [], []⟩] (by decide) (by decide)
    1 ⟨"automation.x_2", "new", none, none, [], []⟩ (by decide) (by decide) (by decide)
  have h2 := h.2 0 ⟨"automation.x", "100", some "kitchen", none, [], []⟩
    (by decide) (by decide) (by decide)
  exact ⟨h2.2, fun e' he' => h2.1 e' he'⟩

/-- Counterexample to claim C1 as frozen: in the chained registry
`[automation.x_2_2, automation.x_2, automation.x]` the entry `automation.x_2` ends
in `_2` and its base `automation.x` is present as an automation entry, yet the
operation leaves the base with `unique_id` `"a"` (taken from `automation.x_2_2`),
not the `_2` entry's `unique_id` `"b"`: the earlier iteration for
`automation.x_2_2` overwrote the still-aliased `automation.x_2` record before it
was read. -/
theorem fix_registry_chain_cex :
    pyEndsWith cexChainB.entity_id "_2" = true ∧
    cexChainC ∈ cexChain ∧ isAutomation cexChainC = true ∧
    cexChainC.entity_id = pyDropLast2 cexChainB.entity_id ∧
    fixEntities cexChain = [⟨"automation.x", "a", none, none, [], []⟩] ∧
    (∀ e' ∈ fixEntities cexChain, e'.unique_id ≠ cexChainB.unique_id) := by
  decide
